import Mathlib

/-!
  Verification development for the `rspdft` PDF generation engine
  (crates/pdf-core).  The Rust sources are shallowly embedded: pure
  functions become Lean functions, the mutable `PdfDocument` becomes an
  explicit state record, `Result<T>` becomes `Except PdfError`, machine
  floats (`f32`/`f64`) are modelled as rationals, and the std
  `HashMap`/`HashSet` containers are modelled as association lists /
  duplicate-free lists.  The external collaborators (`lopdf` object
  graph access, `ttf_parser` face queries, image decoding) are modelled
  by explicit first-order data (an object table, a finite cmap table, a
  decode function parameter), which is exactly the interface the
  embedded code consumes.
-/

set_option maxRecDepth 4000

namespace Rspdft

/-! ## Association-list helpers (model of `HashMap` lookup / insert) -/

/-- First-match lookup in an association list (models `HashMap::get`). -/
def alookup {κ α : Type} [DecidableEq κ] : List (κ × α) → κ → Option α
  | [], _ => none
  | (k₀, v) :: t, k => if k₀ = k then some v else alookup t k

/-- Replace the first binding of `k` (or append one); models
`HashMap::insert`.  Re-inserting the looked-up value is the identity. -/
def upsert {κ α : Type} [DecidableEq κ] : List (κ × α) → κ → α → List (κ × α)
  | [], k, v => [(k, v)]
  | (k₀, v₀) :: t, k, v =>
      if k₀ = k then (k, v) :: t else (k₀, v₀) :: upsert t k v

/-! ## Hex formatting (model of Rust `format!("{:04X}", n)`) -/

/-- One uppercase hex digit. -/
def hexChar (n : Nat) : Char :=
  if n < 10 then Char.ofNat (48 + n) else Char.ofNat (55 + n)

/-- Big-endian hex digits of `n` (empty for `0`); `fuel ≥ n` suffices. -/
def hexCore : Nat → Nat → List Char
  | 0, _ => []
  | fuel + 1, n => if n = 0 then [] else hexCore fuel (n / 16) ++ [hexChar (n % 16)]

/-- Rust `format!("{:04X}", n)`: uppercase hex, zero-padded to width ≥ 4. -/
def hex04 (n : Nat) : String :=
  let ds : List Char := if n = 0 then ['0'] else hexCore n n
  ⟨List.replicate (4 - ds.length) '0' ++ ds⟩

/-! ## Chunking (model of Rust `slice::chunks(100)`) -/

/-- Split a list into consecutive chunks of at most `n` elements.
`fuel ≥ l.length` (with `n ≥ 1`) makes it total. -/
def chunksAux {α : Type} (n : Nat) : Nat → List α → List (List α)
  | _, [] => []
  | 0, _ :: _ => []
  | fuel + 1, x :: xs => (x :: xs).take n :: chunksAux n fuel ((x :: xs).drop n)

/-- `char_list.chunks(100)` from `generate_tounicode_cmap`. -/
def chunk100 (l : List Char) : List (List Char) := chunksAux 100 l.length l

/-! ## Font model (`crates/pdf-core/src/font.rs`) -/

/-- `FontWeight` from font.rs. -/
inductive FontWeight where
  | Regular
  | Bold
deriving DecidableEq, Repr

/-- `FontStyle` from font.rs. -/
inductive FontStyle where
  | Normal
  | Italic
deriving DecidableEq, Repr

/-- Model of a parsed `ttf_parser::Face`: the character-to-glyph cmap
table, the per-glyph horizontal advances, and the global metrics.  The
face is external data; the engine only queries these finite tables. -/
structure Face where
  cmap : List (Char × Nat)
  hmtx : List (Nat × Nat)
  upm : Nat
  asc : Int
  desc : Int
deriving DecidableEq, Repr

/-- Result of glyph subsetting: the set of original glyph ids kept in
the subset, and the codepoint → new glyph id map. -/
structure SubsetResult where
  glyphs : List Nat
  remap : List (Char × Nat)
deriving DecidableEq, Repr

/-- `FontData` from font.rs; `used_chars` (a `HashSet<char>`) is a
duplicate-free list, `face : Option Face` models the optional parsed
face.  The `subset` field holds the result of `create_subset`. -/
structure FontData where
  name : String
  ttf_data : List Nat
  usedChars : List Char
  face : Option Face
  subset : Option SubsetResult
deriving DecidableEq, Repr

/-- `FontData::glyph_id`. -/
def glyph_id (fd : FontData) (c : Char) : Option Nat :=
  fd.face.bind fun f => alookup f.cmap c

/-- `FontData::has_glyph`: true iff the glyph exists and is non-zero. -/
def has_glyph (fd : FontData) (c : Char) : Bool :=
  match glyph_id fd c with
  | some g => g ≠ 0
  | none => false

/-- `FontData::glyph_advance`. -/
def glyph_advance (fd : FontData) (c : Char) : Option Nat :=
  fd.face.bind fun f => (alookup f.cmap c).bind fun g => alookup f.hmtx g

/-- `FontData::units_per_em` (default 1000 without a face). -/
def units_per_em (fd : FontData) : Nat :=
  (fd.face.map Face.upm).getD 1000

/-- `FontData::text_width`: sum of advances, unmapped codepoints ignored. -/
def text_width (fd : FontData) (text : List Char) : Nat :=
  (text.filterMap (glyph_advance fd)).sum

/-- `FontData::text_width_points`. -/
def text_width_points (fd : FontData) (text : List Char) (font_size : ℚ) : ℚ :=
  ((text_width fd text : ℚ) / (units_per_em fd : ℚ)) * font_size

/-- `FontData::add_chars`: union the codepoints into the used set. -/
def add_chars (fd : FontData) (text : List Char) : FontData :=
  { fd with usedChars := text.foldl (fun s c => s.insert c) fd.usedChars }

/-- `FontData::encode_text_hex`: `<XXXX…>` of original glyph ids. -/
def encode_text_hex (fd : FontData) (text : List Char) : String :=
  "<" ++ String.join (text.map fun c => hex04 ((glyph_id fd c).getD 0)) ++ ">"

/-- Modelled from the spec: `FontData::create_subset` is invoked from
`PdfDocument::subset_fonts` but its definition is not among the
sources.  Per the spec it produces a minimal TrueType containing glyphs
for every used codepoint plus glyph 0 (notdef), together with a
codepoint → new-glyph-id map; when no characters are used, subsetting
is skipped.  The subset's glyph set is modelled as glyph 0 plus the
glyph ids of the used codepoints, sorted; the new gid of a codepoint is
its glyph's index in that sorted list. -/
def create_subset (fd : FontData) : FontData :=
  if fd.usedChars = [] then fd
  else
    let gids := (0 :: fd.usedChars.map fun c => (glyph_id fd c).getD 0).dedup
    let sortedGids := List.insertionSort (· ≤ ·) gids
    let remap := fd.usedChars.map fun c =>
      (c, sortedGids.indexOf ((glyph_id fd c).getD 0))
    { fd with subset := some ⟨sortedGids, remap⟩ }

/-- Modelled from the spec: `FontData::encode_text_hex_remapped` is
invoked from `PdfDocument::encode_buffered_text` but its definition is
not among the sources.  Per the spec it emits `<XXXX XXXX …>` where
each XXXX is the 4-hex-digit remapped glyph id, or the original glyph
id if no subset exists, or `0000` if unmapped. -/
def encode_text_hex_remapped (fd : FontData) (text : List Char) : String :=
  match fd.subset with
  | none => encode_text_hex fd text
  | some s =>
      "<" ++ String.join (text.map fun c => hex04 ((alookup s.remap c).getD 0)) ++ ">"

/-- `FontFamily` from font.rs. -/
structure FontFamily where
  regular : Option FontData
  bold : Option FontData
  italic : Option FontData
  bold_italic : Option FontData
deriving DecidableEq, Repr

/-- `FontFamily::get_variant`: variant selection with fallback. -/
def get_variant (fam : FontFamily) (weight : FontWeight) (style : FontStyle) :
    Option FontData :=
  match weight, style with
  | .Bold, .Italic =>
      (fam.bold_italic.or fam.bold).or (fam.italic.or fam.regular)
  | .Bold, .Normal => fam.bold.or fam.regular
  | .Regular, .Italic => fam.italic.or fam.regular
  | .Regular, .Normal => fam.regular

/-- `FontFamily::get_variant_name`: internal variant name used for PDF
resource naming and lookup. -/
def get_variant_name (family_name : String) (weight : FontWeight)
    (style : FontStyle) : String :=
  match weight, style with
  | .Bold, .Italic => family_name ++ "-bold-italic"
  | .Bold, .Normal => family_name ++ "-bold"
  | .Regular, .Italic => family_name ++ "-italic"
  | .Regular, .Normal => family_name

/-- The documented selection chain for a `(weight, style)` request
(§4.2 of the spec): the variants to try, in order. -/
def variantChain (fam : FontFamily) (weight : FontWeight) (style : FontStyle) :
    List (Option FontData) :=
  match weight, style with
  | .Bold, .Italic => [fam.bold_italic, fam.bold, fam.italic, fam.regular]
  | .Bold, .Normal => [fam.bold, fam.regular]
  | .Regular, .Italic => [fam.italic, fam.regular]
  | .Regular, .Normal => [fam.regular]

/-- `FontFamilyBuilder` from font.rs: four optional TTF byte buffers. -/
structure FontFamilyBuilder where
  regular : Option (List Nat)
  bold : Option (List Nat)
  italic : Option (List Nat)
  bold_italic : Option (List Nat)

/-- The error taxonomy of lib.rs (`PdfError`). -/
inductive PdfError where
  | OpenError (msg : String)
  | SaveError (msg : String)
  | FontNotFound (name : String)
  | FontAlreadyExists (name : String)
  | FontParseError (msg : String)
  | FontSubsetError (msg : String)
  | InvalidPage (given total : Nat)
  | ImageError (msg : String)
  | ParseError (msg : String)
  | IoError
  | LopdfError (msg : String)
deriving DecidableEq, Repr

/-- `FontData::from_ttf`; the external `ttf_parser::Face::parse` is the
`parse` parameter, failing with `FontParseError` on `none`. -/
def from_ttf (parse : List Nat → Option Face) (name : String)
    (ttf_data : List Nat) : Except PdfError FontData :=
  match parse ttf_data with
  | some face =>
      .ok { name := name, ttf_data := ttf_data, usedChars := [],
            face := some face, subset := none }
  | none => .error (.FontParseError "parse failure")

/-- `FontFamilyBuilder::build`: regular is mandatory; each variant is
parsed with `from_ttf` under the name the source formats for it. -/
def build (parse : List Nat → Option Face) (b : FontFamilyBuilder)
    (family_name : String) : Except PdfError FontFamily := do
  match b.regular with
  | none =>
      throw (.FontParseError "FontFamily must have at least a regular variant")
  | some data => do
      let regular ← from_ttf parse (family_name ++ "-regular") data
      let bold ← match b.bold with
        | some d => do
            let fd ← from_ttf parse (family_name ++ "-bold") d
            pure (some fd)
        | none => pure none
      let italic ← match b.italic with
        | some d => do
            let fd ← from_ttf parse (family_name ++ "-italic") d
            pure (some fd)
        | none => pure none
      let bold_italic ← match b.bold_italic with
        | some d => do
            let fd ← from_ttf parse (family_name ++ "-bold-italic") d
            pure (some fd)
        | none => pure none
      pure { regular := some regular, bold := bold, italic := italic,
             bold_italic := bold_italic }

/-- One step of the per-family scan: a present variant matching the
name. -/
def famFindAux (v : Option FontData) (name : String) : Option FontData :=
  match v with
  | some fd => if fd.name = name then some fd else none
  | none => none

/-- `PdfDocument::get_font_data`'s per-family scan: the first variant
(in regular, bold, italic, bold-italic order) whose name matches. -/
def famFind (fam : FontFamily) (name : String) : Option FontData :=
  (famFindAux fam.regular name).or ((famFindAux fam.bold name).or
    ((famFindAux fam.italic name).or (famFindAux fam.bold_italic name)))

/-! ## ToUnicode CMap (`FontData::generate_tounicode_cmap`) -/

/-- The canonical CMap header emitted by the source, byte for byte. -/
def cmapHeader : String :=
  "/CIDInit /ProcSet findresource begin\n" ++
  "12 dict begin\n" ++
  "begincmap\n" ++
  "/CIDSystemInfo << /Registry (Adobe) /Ordering (UCS) /Supplement 0 >> def\n" ++
  "/CMapName /Adobe-Identity-UCS def\n" ++
  "/CMapType 2 def\n" ++
  "1 begincodespacerange\n" ++
  "<0000> <FFFF>\n" ++
  "endcodespacerange\n"

/-- The canonical CMap footer emitted by the source. -/
def cmapFooter : String :=
  "endcmap\n" ++
  "CMapName currentdict /CMap defineresource pop\n" ++
  "end\n" ++
  "end\n"

/-- One `<GID4hex> <CP4hex>` mapping line. -/
def bfcharEntry (fd : FontData) (c : Char) : String :=
  "<" ++ hex04 ((glyph_id fd c).getD 0) ++ "> <" ++ hex04 c.toNat ++ ">\n"

/-- One `N beginbfchar … endbfchar` block for a chunk. -/
def bfcharBlock (fd : FontData) (chunk : List Char) : String :=
  toString chunk.length ++ " beginbfchar\n" ++
  String.join (chunk.map (bfcharEntry fd)) ++ "endbfchar\n"

/-- `char_list` of `generate_tounicode_cmap`: the used codepoints
sorted ascending by codepoint (`sort_by_key(|c| *c as u32)`; `Char`'s
order is by codepoint). -/
def sortedUsed (fd : FontData) : List Char :=
  List.insertionSort (fun a b : Char => a ≤ b) fd.usedChars

/-- The `chunks(100)` decomposition of the sorted used codepoints. -/
def cmapChunks (fd : FontData) : List (List Char) :=
  chunk100 (sortedUsed fd)

/-- `FontData::generate_tounicode_cmap`: header, then the used
codepoints sorted ascending in chunks of at most 100 (omitted entirely
when the used set is empty), then the footer. -/
def generate_tounicode_cmap (fd : FontData) : String :=
  cmapHeader ++
  (if (sortedUsed fd).isEmpty then ""
   else String.join ((cmapChunks fd).map (bfcharBlock fd))) ++
  cmapFooter

/-! ## PDF object graph (model of the `lopdf` document) -/

/-- A `lopdf::Object`, restricted to the shapes the embedded code
inspects: dictionaries, arrays, streams (dictionary plus content
bytes), indirect references (ids as `Nat`), integers, reals
(as rationals) and names. -/
inductive PdfObj where
  | dict (entries : List (String × PdfObj))
  | array (elems : List PdfObj)
  | stream (sdict : List (String × PdfObj)) (content : List Nat)
  | ref (id : Nat)
  | int (n : Int)
  | real (q : ℚ)
  | name (s : String)

/-- `Dictionary::get`. -/
def dictGet (d : List (String × PdfObj)) (k : String) : Option PdfObj :=
  alookup d k

/-- `Dictionary::set`. -/
def dictSet (d : List (String × PdfObj)) (k : String) (v : PdfObj) :
    List (String × PdfObj) :=
  upsert d k v

/-- The `lopdf::Document` as the engine sees it: the indirect object
table and the trailer dictionary. -/
structure PdfGraph where
  objects : List (Nat × PdfObj)
  trailer : List (String × PdfObj)

/-- `Document::get_object`: lookup by id, `lopdf::Error` if absent. -/
def getObject (g : PdfGraph) (id : Nat) : Except PdfError PdfObj :=
  match alookup g.objects id with
  | some o => .ok o
  | none => .error (.LopdfError "object not found")

/-- `Object::as_dict`. -/
def asDict (o : PdfObj) (e : PdfError) :
    Except PdfError (List (String × PdfObj)) :=
  match o with
  | .dict d => .ok d
  | _ => .error e

/-- The largest allocated object id (`lopdf` tracks this as `max_id`). -/
def maxObjId (g : PdfGraph) : Nat :=
  g.objects.foldl (fun m p => max m p.1) 0

/-- `Document::add_object`: allocate a fresh id past `max_id`. -/
def addObject (g : PdfGraph) (o : PdfObj) : Nat × PdfGraph :=
  let id := maxObjId g + 1
  (id, { g with objects := g.objects ++ [(id, o)] })

/-- Replace an object in place (`self.inner.objects.insert(id, obj)`). -/
def setObject (g : PdfGraph) (id : Nat) (o : PdfObj) : PdfGraph :=
  { g with objects := upsert g.objects id o }

/-- `Document::get_pages`, for the flat page trees this repository's
templates and tests construct: catalog `Root` → `Pages` → `Kids`, each
kid an indirect reference to a page.  (lopdf numbers these 1-based.) -/
def getPages (g : PdfGraph) : List Nat :=
  match alookup g.trailer "Root" with
  | some (.ref rootId) =>
      match alookup g.objects rootId with
      | some (.dict cat) =>
          match dictGet cat "Pages" with
          | some (.ref pagesId) =>
              match alookup g.objects pagesId with
              | some (.dict pd) =>
                  match dictGet pd "Kids" with
                  | some (.array kids) =>
                      kids.filterMap fun o =>
                        match o with
                        | .ref r => some r
                        | _ => none
                  | _ => []
              | _ => []
          | _ => []
      | _ => []
  | _ => []

/-- `pages.get(&(page as u32))`: 1-based page number to object id. -/
def pageIdOf (g : PdfGraph) (page : Nat) : Option Nat :=
  if page = 0 then none else (getPages g).get? (page - 1)

/-! ## Page geometry (`get_inherited_media_box`, `get_page_height`) -/

/-- The A4 fallback media box `[0 0 595.28 841.89]`. -/
def defaultA4 : List PdfObj :=
  [.int 0, .int 0, .real (59528 / 100 : ℚ), .real (84189 / 100 : ℚ)]

/-- Numeric extraction: `as_f32` then `as_i64`, as the source tries. -/
def objToRat (o : PdfObj) : Option ℚ :=
  match o with
  | .real q => some q
  | .int n => some (n : ℚ)
  | _ => none

/-- The body of `get_inherited_media_box`'s bounded parent walk: check
the current dictionary for `MediaBox`/`CropBox` (dereferencing one
level of indirection), else follow `Parent`, up to 10 levels; fall back
to A4. -/
def mediaBoxWalk (g : PdfGraph) : Nat → Nat → Except PdfError (List PdfObj)
  | 0, _ => .ok defaultA4
  | fuel + 1, curId =>
      match getObject g curId with
      | .error e => .error e
      | .ok (.dict d) =>
          match (dictGet d "MediaBox").or (dictGet d "CropBox") with
          | some (.array arr) => .ok arr
          | some (.ref refId) =>
              match getObject g refId with
              | .error e => .error e
              | .ok (.array arr) => .ok arr
              | .ok _ => .error (.ParseError "MediaBox reference is not an array")
          | some _ => .error (.ParseError "MediaBox is not an array")
          | none =>
              match dictGet d "Parent" with
              | some (.ref parentId) => mediaBoxWalk g fuel parentId
              | _ => .ok defaultA4
      | .ok _ => .error (.ParseError "Object is not a dictionary")

/-- `PdfDocument::get_inherited_media_box`. -/
def get_inherited_media_box (g : PdfGraph) (pageId : Nat) :
    Except PdfError (List PdfObj) :=
  mediaBoxWalk g 10 pageId

/-- `PdfDocument::extract_height_from_media_box`: `y2 − y1`. -/
def extract_height_from_media_box (mb : List PdfObj) : Except PdfError ℚ :=
  if h : 4 ≤ mb.length then
    match objToRat (mb.get ⟨1, by omega⟩), objToRat (mb.get ⟨3, by omega⟩) with
    | some y1, some y2 => .ok (y2 - y1)
    | none, _ => .error (.ParseError "Invalid MediaBox y1")
    | some _, none => .error (.ParseError "Invalid MediaBox y2")
  else .error (.ParseError "Invalid MediaBox format")

/-- `PdfDocument::get_page_height`. -/
def get_page_height (g : PdfGraph) (page : Nat) : Except PdfError ℚ :=
  match pageIdOf g page with
  | none => .error (.InvalidPage page (getPages g).length)
  | some pid =>
      match get_inherited_media_box g pid with
      | .error e => .error e
      | .ok mb => extract_height_from_media_box mb

/-! ## Document state (`crates/pdf-core/src/document.rs`) -/

/-- `Color`: RGB in [0,1], floats modelled as rationals. -/
structure Color where
  r : ℚ
  g : ℚ
  b : ℚ
deriving DecidableEq, Repr

/-- `TextSegment` from document.rs. -/
structure TextSegment where
  text : List Char
  font_name : String
deriving DecidableEq, Repr

/-- `BufferedTextOp` from document.rs. -/
structure BufferedTextOp where
  text : List Char
  font_name : String
  font_resource_name : String
  page : Nat
  x : ℚ
  y : ℚ
  font_size : ℚ
  color : Color
deriving DecidableEq, Repr

/-- `Align` from lib.rs. -/
inductive Align where
  | Left
  | Center
  | Right
deriving DecidableEq, Repr

/-- `PdfDocument`: the engine state.  HashMaps are association lists. -/
structure DocState where
  inner : PdfGraph
  fonts : List (String × FontData)
  font_families : List (String × FontFamily)
  current_family : Option String
  current_weight : FontWeight
  current_style : FontStyle
  current_font_size : ℚ
  current_text_color : Color
  embedded_fonts : List (String × Nat)
  page_font_resources : List (Nat × List (String × String))
  next_font_resource : Nat
  embedded_images : List (Nat × Nat)
  page_image_resources : List (Nat × List (String × Nat))
  next_image_resource : Nat
  font_fallbacks : List (String × List String)
  page_content_buffer : List (Nat × List Nat)
  buffered_text_ops : List BufferedTextOp

/-- `PdfDocument::page_count`. -/
def page_count (st : DocState) : Nat := (getPages st.inner).length

/-- `PdfDocument::get_font_data`: scan families (each in regular, bold,
italic, bold-italic order) for a variant of that name, then legacy
fonts, else `FontNotFound`. -/
def get_font_data (st : DocState) (name : String) : Except PdfError FontData :=
  match st.font_families.findSome? (fun p => famFind p.2 name) with
  | some fd => .ok fd
  | none =>
      match alookup st.fonts name with
      | some fd => .ok fd
      | none => .error (.FontNotFound name)

/-- Does this optional variant carry the given name? -/
def optNameIs (v : Option FontData) (name : String) : Bool :=
  match v with
  | some fd => fd.name = name
  | none => false

/-- Apply `f` to the first variant of `fam` named `name` (the traversal
order of `get_font_data_mut`), if any. -/
def famUpdate (fam : FontFamily) (name : String) (f : FontData → FontData) :
    Option FontFamily :=
  if optNameIs fam.regular name then
    some { fam with regular := fam.regular.map f }
  else if optNameIs fam.bold name then
    some { fam with bold := fam.bold.map f }
  else if optNameIs fam.italic name then
    some { fam with italic := fam.italic.map f }
  else if optNameIs fam.bold_italic name then
    some { fam with bold_italic := fam.bold_italic.map f }
  else none

/-- Update the first family containing a variant named `name`. -/
def famsUpdate (name : String) (f : FontData → FontData) :
    List (String × FontFamily) → Option (List (String × FontFamily))
  | [] => none
  | (k, fam) :: t =>
      match famUpdate fam name f with
      | some fam' => some ((k, fam') :: t)
      | none => (famsUpdate name f t).map (fun t' => (k, fam) :: t')

/-- Update the legacy font bound to key `name`. -/
def fontsUpdate (name : String) (f : FontData → FontData) :
    List (String × FontData) → Option (List (String × FontData))
  | [] => none
  | (k, fd) :: t =>
      if k = name then some ((k, f fd) :: t)
      else (fontsUpdate name f t).map (fun t' => (k, fd) :: t')

/-- `PdfDocument::get_font_data_mut` followed by an update: families
first (same traversal as `get_font_data`), then legacy fonts. -/
def update_font_data (st : DocState) (name : String) (f : FontData → FontData) :
    Except PdfError DocState :=
  match famsUpdate name f st.font_families with
  | some fams => .ok { st with font_families := fams }
  | none =>
      match fontsUpdate name f st.fonts with
      | some fonts => .ok { st with fonts := fonts }
      | none => .error (.FontNotFound name)

/-- `PdfDocument::get_current_font_name`. -/
def get_current_font_name (st : DocState) : Except PdfError String :=
  match st.current_family with
  | none => .error (.FontNotFound "No font family set")
  | some family_name =>
      match alookup st.font_families family_name with
      | some _ =>
          .ok (get_variant_name family_name st.current_weight st.current_style)
      | none => .ok family_name

/-! ## Text segmentation (`segment_text_by_font`) -/

/-- Walk the fallback list for one character: families resolve via
`get_variant` at the current weight/style, legacy fonts are taken
as-is; the first one owning a glyph wins. -/
def fallbackFontFor (st : DocState) (c : Char) : List String → Option String
  | [] => none
  | fb :: rest =>
      match alookup st.font_families fb with
      | some fam =>
          match get_variant fam st.current_weight st.current_style with
          | some v =>
              if has_glyph v c then some v.name else fallbackFontFor st c rest
          | none => fallbackFontFor st c rest
      | none =>
          match alookup st.fonts fb with
          | some legacy =>
              if has_glyph legacy c then some fb else fallbackFontFor st c rest
          | none => fallbackFontFor st c rest

/-- The font chosen for one character: the primary variant when it has
the glyph, else the first fallback with the glyph, else the primary. -/
def font_for_char (st : DocState) (family_name variant_name : String)
    (c : Char) : String :=
  match get_font_data st variant_name with
  | .ok fd =>
      if has_glyph fd c then variant_name
      else
        match alookup st.font_fallbacks family_name with
        | some fbs => (fallbackFontFor st c fbs).getD variant_name
        | none => variant_name
  | .error _ => variant_name

/-- The grouping loop of `segment_text_by_font`: `font` and `seg` are
the current font and the (never empty) segment being accumulated. -/
def segmentGo (st : DocState) (family_name variant_name : String) :
    List Char → String → List Char → List TextSegment
  | [], font, seg => [⟨seg, font⟩]
  | c :: rest, font, seg =>
      let fc := font_for_char st family_name variant_name c
      if fc = font then segmentGo st family_name variant_name rest font (seg ++ [c])
      else ⟨seg, font⟩ :: segmentGo st family_name variant_name rest fc [c]

/-- `PdfDocument::segment_text_by_font`. -/
def segment_text_by_font (st : DocState) (text : List Char)
    (family_name variant_name : String) : List TextSegment :=
  match text with
  | [] => []
  | c :: rest =>
      segmentGo st family_name variant_name rest
        (font_for_char st family_name variant_name c) [c]

/-! ## Text insertion (`insert_text`) -/

/-- `PdfDocument::get_or_create_font_ref`: look the font up in the
page's resource-tag map (created on demand), else mint `F<n>`. -/
def get_or_create_font_ref (st : DocState) (font_name : String) (page : Nat) :
    String × DocState :=
  let pres := (alookup st.page_font_resources page).getD []
  match alookup pres font_name with
  | some rn =>
      (rn, { st with page_font_resources := upsert st.page_font_resources page pres })
  | none =>
      let rn := "F" ++ toString st.next_font_resource
      (rn, { st with
              next_font_resource := st.next_font_resource + 1,
              page_font_resources :=
                upsert st.page_font_resources page (pres ++ [(font_name, rn)]) })

/-- The per-segment loop of `insert_text`: record used characters, mint
or reuse the page resource tag, push one buffered op, advance x. -/
def renderSegments (pdf_y : ℚ) (page : Nat) :
    List TextSegment → ℚ → DocState → Except PdfError DocState
  | [], _, st => .ok st
  | seg :: rest, cx, st =>
      match update_font_data st seg.font_name (fun fd => add_chars fd seg.text) with
      | .error e => .error e
      | .ok st1 =>
          let pr := get_or_create_font_ref st1 seg.font_name page
          match get_font_data pr.2 seg.font_name with
          | .error e => .error e
          | .ok fd =>
              let w := text_width_points fd seg.text pr.2.current_font_size
              let st2 := { pr.2 with buffered_text_ops := pr.2.buffered_text_ops ++
                [{ text := seg.text, font_name := seg.font_name,
                   font_resource_name := pr.1, page := page, x := cx, y := pdf_y,
                   font_size := pr.2.current_font_size,
                   color := pr.2.current_text_color }] }
              renderSegments pdf_y page rest (cx + w) st2

/-- The total-width accumulation loop of `insert_text`: each segment's
width in points under its own variant, summed left to right. -/
def totalWidthLoop (st : DocState) (fs : ℚ) :
    List TextSegment → ℚ → Except PdfError ℚ
  | [], acc => .ok acc
  | s :: rest, acc =>
      match get_font_data st s.font_name with
      | .error e => .error e
      | .ok fd =>
          totalWidthLoop st fs rest (acc + text_width_points fd s.text fs)

/-- `PdfDocument::insert_text`. -/
def insert_text (st : DocState) (text : List Char) (page : Nat) (x y : ℚ)
    (align : Align) : Except PdfError DocState :=
  let pc := page_count st
  if page = 0 ∨ page > pc then .error (.InvalidPage page pc)
  else if text = [] then .ok st
  else
    match st.current_family with
    | none => .error (.FontNotFound "No font family set")
    | some family_name =>
        match get_current_font_name st with
        | .error e => .error e
        | .ok font_name =>
            let segments :=
              if (alookup st.font_fallbacks family_name).isSome
              then segment_text_by_font st text family_name font_name
              else [⟨text, font_name⟩]
            match totalWidthLoop st st.current_font_size segments 0 with
            | .error e => .error e
            | .ok total_width =>
                match get_page_height st.inner page with
                | .error e => .error e
                | .ok page_height =>
                    let pdf_y := page_height - y
                    let start_x :=
                      match align with
                      | .Left => x
                      | .Center => x - total_width / 2
                      | .Right => x - total_width
                    renderSegments pdf_y page segments start_x st

/-! ## Font subsetting during save (`subset_fonts`) -/

/-- The names a family contributes to subsetting: variants (in source
iteration order) whose used set is non-empty. -/
def familyUsedNames (fam : FontFamily) : List String :=
  ([fam.regular, fam.bold, fam.italic, fam.bold_italic].reduceOption).filterMap
    fun fd => if fd.usedChars = [] then none else some fd.name

/-- `Vec::dedup`: drop consecutive duplicates (applied after sorting). -/
def dedupConsec : List String → List String
  | [] => []
  | [x] => [x]
  | x :: y :: t =>
      if x = y then dedupConsec (y :: t) else x :: dedupConsec (y :: t)

/-- The deduplicated, sorted list of names `subset_fonts` collects:
variants with a non-empty used set from the families, then legacy
fonts with a non-empty used set. -/
def subsetNames (st : DocState) : List String :=
  dedupConsec (List.insertionSort (fun a b : String => a ≤ b)
    (st.font_families.flatMap (fun p => familyUsedNames p.2)
      ++ st.fonts.filterMap
          (fun p => if p.2.usedChars = [] then none else some p.1)))

/-- `PdfDocument::subset_fonts`: collect the names of used variants
(families then legacy), sort and dedup, and run `create_subset` on the
font found under each name. -/
def subset_fonts (st : DocState) : Except PdfError DocState :=
  (subsetNames st).foldlM (fun s n => update_font_data s n create_subset) st

/-! ## Images (`get_or_create_image_ref`, `add_image_to_page_resources`) -/

/-- The decoded image as the engine consumes it: pixel dimensions plus
the already-built stream dictionary/payload (`ImageXObject`). -/
structure ImageXObject where
  width : Nat
  height : Nat
  sdict : List (String × PdfObj)
  content : List Nat

/-- `ImageXObject::to_pdf_stream`: a stream whose dictionary carries
`Width` and `Height`. -/
def imgToStream (xo : ImageXObject) : PdfObj :=
  .stream (dictSet (dictSet xo.sdict "Width" (.int xo.width)) "Height"
    (.int xo.height)) xo.content

/-- Model of `std::collections::hash_map::DefaultHasher` on the raw
byte buffer: any fixed 64-bit hash function; the engine only relies on
it being a function of the bytes. -/
def imageHash (data : List Nat) : Nat :=
  data.foldl (fun h b => (h * 31 + b) % (2 ^ 64)) 5381

/-- Read `Width`/`Height` back from the stored XObject stream. -/
def getDims (o : PdfObj) : Except PdfError (Nat × Nat) :=
  match o with
  | .stream d _ =>
      match dictGet d "Width" with
      | some (.int w) =>
          match dictGet d "Height" with
          | some (.int h) => .ok (w.toNat, h.toNat)
          | _ => .error (.ParseError "Image missing Height")
      | _ => .error (.ParseError "Image missing Width")
  | _ => .error (.ParseError "Image object is not a stream")

/-- `PdfDocument::add_image_to_page_resources`: write
`Resources/XObject/<tag> → <ref>` into the page dictionary. -/
def add_image_to_page_resources (st : DocState) (page : Nat)
    (resource_name : String) (object_id : Nat) : Except PdfError DocState :=
  match pageIdOf st.inner page with
  | none => .error (.InvalidPage page (getPages st.inner).length)
  | some pageId =>
      match getObject st.inner pageId with
      | .error e => .error e
      | .ok (.dict pdict) =>
          let resources :=
            match dictGet pdict "Resources" with
            | some (.dict d) => d
            | _ => []
          let xdict :=
            match dictGet resources "XObject" with
            | some (.dict d) => d
            | _ => []
          let xdict' := dictSet xdict resource_name (.ref object_id)
          let resources' := dictSet resources "XObject" (.dict xdict')
          let pdict' := dictSet pdict "Resources" (.dict resources')
          .ok { st with inner := setObject st.inner pageId (.dict pdict') }
      | .ok _ => .error (.SaveError "Page object is not a dictionary")

/-- The tag-minting tail of `get_or_create_image_ref`: ensure the
page's image-resource map exists, reuse the tag already bound to this
object id, or mint `Im<n>` and write the page-dictionary entry. -/
def imageTagStep (oid w h : Nat) (st : DocState) (page : Nat) :
    Except PdfError (String × Nat × Nat × DocState) :=
  let pres := (alookup st.page_image_resources page).getD []
  let st1 := { st with
    page_image_resources := upsert st.page_image_resources page pres }
  match pres.find? (fun p => p.2 = oid) with
  | some p => .ok (p.1, w, h, st1)
  | none =>
      let rn := "Im" ++ toString st1.next_image_resource
      let st2 := { st1 with
                   next_image_resource := st1.next_image_resource + 1,
                   page_image_resources :=
                     upsert st1.page_image_resources page (pres ++ [(rn, oid)]) }
      match add_image_to_page_resources st2 page rn oid with
      | .error e => .error e
      | .ok st3 => .ok (rn, w, h, st3)

/-- `PdfDocument::get_or_create_image_ref`; `decode` models
`ImageXObject::from_jpeg(data).or_else(|_| ImageXObject::from_png(data))`,
a pure function of the byte buffer.  The tail of the function (reading
back the dimensions, then minting or reusing the page tag) is split
out as `imageTagStep`. -/
def get_or_create_image_ref (decode : List Nat → Option ImageXObject)
    (st : DocState) (data : List Nat) (page : Nat) :
    Except PdfError (String × Nat × Nat × DocState) :=
  let dhash := imageHash data
  let step2 := fun (oid : Nat) (st : DocState) =>
    match getObject st.inner oid with
    | .error e => .error e
    | .ok xobj =>
        match getDims xobj with
        | .error e => .error e
        | .ok (w, h) => imageTagStep oid w h st page
  match alookup st.embedded_images dhash with
  | some oid => step2 oid st
  | none =>
      match decode data with
      | none => .error (.ImageError "Failed to create image XObject")
      | some xo =>
          let pr := addObject st.inner (imgToStream xo)
          step2 pr.1 { st with
                  inner := pr.2,
                  embedded_images := upsert st.embedded_images dhash pr.1 }

/-! ## Page duplication (`duplicate_page`) -/

/-- `lopdf::Stream::new`: sets `Length` from the content. -/
def streamNew (sd : List (String × PdfObj)) (content : List Nat) : PdfObj :=
  .stream (dictSet sd "Length" (.int content.length)) content

/-- The stream payloads gathered from a `Contents` array: only
reference elements that resolve to streams are kept. -/
def collectArrStreams (g : PdfGraph) (arr : List PdfObj) :
    List (List (String × PdfObj) × List Nat) :=
  arr.filterMap fun o =>
    match o with
    | .ref rid =>
        match alookup g.objects rid with
        | some (.stream sd sc) => some (sd, sc)
        | _ => none
    | _ => none

/-- Add each gathered stream as a fresh object; return the new
reference array. -/
def cloneStreams (g : PdfGraph) :
    List (List (String × PdfObj) × List Nat) → List PdfObj × PdfGraph
  | [] => ([], g)
  | (sd, sc) :: rest =>
      let (nid, g1) := addObject g (streamNew sd sc)
      let (arr, g2) := cloneStreams g1 rest
      (PdfObj.ref nid :: arr, g2)

/-- The cloned page dictionary and possibly-extended graph: the
`Contents` entry is deep-copied in the inline-stream and
array-of-references forms; any other shape is left as-is. -/
def clonePageDict (g : PdfGraph) (sdict : List (String × PdfObj)) :
    List (String × PdfObj) × PdfGraph :=
  match dictGet sdict "Contents" with
  | some (.stream sd sc) => (dictSet sdict "Contents" (streamNew sd sc), g)
  | some (.array arr) =>
      let pr := cloneStreams g (collectArrStreams g arr)
      (dictSet sdict "Contents" (.array pr.1), pr.2)
  | _ => (sdict, g)

/-- The page-tree update shared by `duplicate_page` (and
`add_blank_page`): walk trailer `Root` → catalog `Pages`, append the
new page reference to `Kids` and increment `Count`. -/
def appendKid (g : PdfGraph) (newPageId : Nat) : Except PdfError PdfGraph :=
  match alookup g.trailer "Root" with
  | none => .error (.ParseError "Document trailer missing Root entry")
  | some rootRef =>
      match rootRef with
      | .ref catalogId =>
          match getObject g catalogId with
          | .error e => .error e
          | .ok (.dict catDict) =>
              match dictGet catDict "Pages" with
              | none => .error (.ParseError "Catalog missing Pages entry")
              | some (.ref pagesId) =>
                  match getObject g pagesId with
                  | .error e => .error e
                  | .ok (.dict pagesDict) =>
                      match dictGet pagesDict "Kids" with
                      | some (.array kidsArr) =>
                          match dictGet pagesDict "Count" with
                          | some (.int cnt) =>
                              .ok (setObject g pagesId (.dict
                                (dictSet (dictSet pagesDict "Kids"
                                  (.array (kidsArr ++ [.ref newPageId])))
                                  "Count" (.int (cnt + 1)))))
                          | some _ => .error (.ParseError "Count is not an integer")
                          | none => .error (.ParseError "Pages object missing Count")
                      | some _ => .error (.ParseError "Kids is not an array")
                      | none => .error (.ParseError "Pages object missing Kids array")
                  | .ok _ => .error (.ParseError "Pages object is not a dictionary")
              | some _ => .error (.ParseError "Pages is not a reference")
          | .ok _ => .error (.ParseError "Catalog is not a dictionary")
      | _ => .error (.ParseError "Root is not a reference")

/-- `PdfDocument::duplicate_page`. -/
def duplicate_page (st : DocState) (page : Nat) :
    Except PdfError (DocState × Nat) :=
  let pc := (getPages st.inner).length
  if page = 0 ∨ page > pc then .error (.InvalidPage page pc)
  else
    match pageIdOf st.inner page with
    | none => .error (.InvalidPage page pc)
    | some spid =>
        match getObject st.inner spid with
        | .error e => .error e
        | .ok (.dict sdict) =>
            let pr := clonePageDict st.inner sdict
            let pr2 := addObject pr.2 (.dict pr.1)
            match appendKid pr2.2 pr2.1 with
            | .error e => .error e
            | .ok inner3 =>
                let st1 := { st with inner := inner3 }
                let st2 :=
                  match alookup st1.page_font_resources page with
                  | some m =>
                      { st1 with
                        page_font_resources :=
                          upsert st1.page_font_resources (pc + 1) m }
                  | none => st1
                let st3 :=
                  match alookup st2.page_image_resources page with
                  | some m =>
                      { st2 with
                        page_image_resources :=
                          upsert st2.page_image_resources (pc + 1) m }
                  | none => st2
                .ok (st3, pc + 1)
        | .ok _ => .error (.ParseError "Page object is not a dictionary")

/-! ## Concrete fixtures for evaluation -/

/-- A tiny face: 'A' ↦ gid 5 with advance 500, 'B' ↦ gid 7 with
advance 500, upm 1000 (scenario 1 of the spec's §8). -/
def testFace : Face :=
  { cmap := [('A', 5), ('B', 7)], hmtx := [(5, 500), (7, 500)],
    upm := 1000, asc := 800, desc := -200 }

/-- A parse function that accepts everything as `testFace`. -/
def testParse : List Nat → Option Face := fun _ => some testFace

/-- A builder carrying all four variants. -/
def sarabunBuilder : FontFamilyBuilder :=
  { regular := some [1], bold := some [2], italic := some [3],
    bold_italic := some [4] }

/-- A fresh test descriptor over `testFace`. -/
def mkTestFd (name : String) (ttf : List Nat) : FontData :=
  { name := name, ttf_data := ttf, usedChars := [], face := some testFace,
    subset := none }

/-- The family `build testParse sarabunBuilder "sarabun"` produces. -/
def sarabunFam : FontFamily :=
  { regular := some (mkTestFd "sarabun-regular" [1]),
    bold := some (mkTestFd "sarabun-bold" [2]),
    italic := some (mkTestFd "sarabun-italic" [3]),
    bold_italic := some (mkTestFd "sarabun-bold-italic" [4]) }

/-- An empty object graph. -/
def emptyGraph : PdfGraph := { objects := [], trailer := [] }

/-- A one-page document graph shaped like the integration tests'
`create_test_pdf`: catalog 1, page tree 2, page 3, content stream 4. -/
def onePageGraph : PdfGraph :=
  { objects :=
      [(1, .dict [("Type", .name "Catalog"), ("Pages", .ref 2)]),
       (2, .dict [("Type", .name "Pages"), ("Count", .int 1),
                  ("Kids", .array [.ref 3])]),
       (3, .dict [("Type", .name "Page"), ("Parent", .ref 2),
                  ("MediaBox", .array [.int 0, .int 0,
                    .real (59528 / 100 : ℚ), .real (84189 / 100 : ℚ)]),
                  ("Resources", .dict []),
                  ("Contents", .ref 4)]),
       (4, .stream [] [66, 84])],
    trailer := [("Root", .ref 1)] }

/-- The freshly opened engine state over a graph (the field values of
`PdfDocument::open_from_bytes`). -/
def openedDoc (g : PdfGraph) : DocState :=
  { inner := g, fonts := [], font_families := [], current_family := none,
    current_weight := .Regular, current_style := .Normal,
    current_font_size := 12, current_text_color := ⟨0, 0, 0⟩,
    embedded_fonts := [], page_font_resources := [], next_font_resource := 1,
    embedded_images := [], page_image_resources := [],
    next_image_resource := 1, font_fallbacks := [],
    page_content_buffer := [], buffered_text_ops := [] }

/-- One page, family "sarabun" registered and selected, regular/normal. -/
def docC1 : DocState :=
  { openedDoc onePageGraph with
      font_families := [("sarabun", sarabunFam)],
      current_family := some "sarabun" }

/-- A legacy font "t" over `testFace` (the `add_font` path registers
the descriptor under the plain name in both maps). -/
def fdT : FontData := mkTestFd "t" [9]

/-- The single-variant family `add_font` registers alongside `fdT`. -/
def famT : FontFamily :=
  { regular := some fdT, bold := none, italic := none, bold_italic := none }

/-- One page, legacy font "t" added and selected at size 12. -/
def docC6 : DocState :=
  { openedDoc onePageGraph with
      fonts := [("t", fdT)],
      font_families := [("t", famT)],
      current_family := some "t" }

/-- The state after inserting "A" at (100, 100) on page 1 of `docC6`. -/
def docC6r : DocState :=
  match insert_text docC6 ['A'] 1 100 100 .Left with
  | .ok st => st
  | .error _ => docC6

/-- Two dictionaries whose `Parent` references form a cycle and which
carry no `MediaBox`/`CropBox`: the bounded walk must hit its 10-level
cap and fall back to A4. -/
def cycleGraph : PdfGraph :=
  { objects := [(1, .dict [("Parent", .ref 2)]),
                (2, .dict [("Parent", .ref 1)])],
    trailer := [] }

/-- A legacy font with one used character, for evaluating subsetting. -/
def fdC3 : FontData := { mkTestFd "t" [9] with usedChars := ['A'] }

/-- The single-variant family registered alongside `fdC3`. -/
def famC3 : FontFamily :=
  { regular := some fdC3, bold := none, italic := none, bold_italic := none }

/-- One page, font "t" with a used character. -/
def docC3 : DocState :=
  { openedDoc onePageGraph with
      fonts := [("t", fdC3)],
      font_families := [("t", famC3)],
      current_family := some "t" }

/-- A descriptor with two used characters, for evaluating the CMap. -/
def fdC8 : FontData :=
  { name := "t", ttf_data := [], usedChars := ['B', 'A'],
    face := some testFace, subset := none }

/-- A concrete decoded image for evaluating image insertion. -/
def xoC9 : ImageXObject :=
  { width := 16, height := 16, sdict := [], content := [1, 2] }

/-- A decoder that accepts every byte buffer as `xoC9` (the embedding's
stand-in for a valid JPEG). -/
def decodeC9 : List Nat → Option ImageXObject := fun _ => some xoC9

/-- The result of one concrete image insertion on the one-page document. -/
def c9res : String × Nat × Nat × DocState :=
  match get_or_create_image_ref decodeC9 (openedDoc onePageGraph) [7] 1 with
  | .ok r => r
  | .error _ => ("", 0, 0, openedDoc onePageGraph)

/-- A page dictionary whose `Contents` is an inline stream (the
single-stream form of page duplication). -/
def c2PageDict : List (String × PdfObj) :=
  [("Type", .name "Page"), ("Parent", .ref 2),
   ("Contents", .stream [] [66, 84])]

/-- The catalog of the page-duplication fixture. -/
def c2CatDict : List (String × PdfObj) :=
  [("Type", .name "Catalog"), ("Pages", .ref 2)]

/-- The page-tree node of the page-duplication fixture. -/
def c2PagesDict : List (String × PdfObj) :=
  [("Type", .name "Pages"), ("Count", .int 1), ("Kids", .array [.ref 3])]

/-- A one-page document whose page carries an inline content stream. -/
def c2Graph : PdfGraph :=
  { objects := [(1, .dict c2CatDict), (2, .dict c2PagesDict),
      (3, .dict c2PageDict)],
    trailer := [("Root", .ref 1)] }

/-! ## Helper lemmas -/

theorem alookup_upsert_self {κ α : Type} [DecidableEq κ]
    (l : List (κ × α)) (k : κ) (v : α) : alookup (upsert l k v) k = some v := by
  induction l with
  | nil => simp [upsert, alookup]
  | cons hd t ih =>
      by_cases h : hd.1 = k
      · simp [upsert, h, alookup]
      · simp only [upsert]
        rw [if_neg h]
        simp [alookup, h, ih]

theorem alookup_upsert_ne {κ α : Type} [DecidableEq κ]
    (l : List (κ × α)) (k k' : κ) (v : α) (h : k ≠ k') :
    alookup (upsert l k v) k' = alookup l k' := by
  induction l with
  | nil => simp [upsert, alookup, h]
  | cons hd t ih =>
      by_cases hk : hd.1 = k
      · simp [upsert, hk, alookup, h, hk ▸ h]
      · simp only [upsert]
        rw [if_neg hk]
        by_cases hk' : hd.1 = k'
        · simp [alookup, hk']
        · simp [alookup, hk', ih]

theorem upsert_lookup_id {κ α : Type} [DecidableEq κ]
    (l : List (κ × α)) (k : κ) (v : α) (h : alookup l k = some v) :
    upsert l k v = l := by
  induction l with
  | nil => simp [alookup] at h
  | cons hd t ih =>
      obtain ⟨k₀, v₀⟩ := hd
      by_cases hk : k₀ = k
      · subst hk
        simp [alookup] at h
        subst h
        simp [upsert]
      · simp only [alookup, if_neg hk] at h
        simp only [upsert]
        rw [if_neg hk, ih h]

theorem hexCore_length_le {k : Nat} :
    ∀ fuel n, n ≤ fuel → n < 16 ^ k → (hexCore fuel n).length ≤ k := by
  intro fuel
  induction fuel generalizing k with
  | zero => intro n _ _; simp [hexCore]
  | succ f ih =>
      intro n hle hlt
      by_cases h0 : n = 0
      · simp [hexCore, h0]
      · have hk : k ≠ 0 := by
          rintro rfl
          simp at hlt
          omega
        obtain ⟨k', rfl⟩ := Nat.exists_eq_succ_of_ne_zero hk
        have hdiv : n / 16 < 16 ^ k' := by
          rw [Nat.div_lt_iff_lt_mul (by norm_num)]
          calc n < 16 ^ (k' + 1) := hlt
          _ = 16 ^ k' * 16 := by ring
        have hdle : n / 16 ≤ f := by
          have : n / 16 < n := Nat.div_lt_self (Nat.pos_of_ne_zero h0) (by norm_num)
          omega
        simp only [hexCore, h0, if_false]
        rw [List.length_append]
        have := ih (k := k') (n / 16) hdle hdiv
        simp
        omega

/-- For u16 values (all glyph ids) the formatted field is exactly 4 hex
digits, as the spec's `<GID4hex>` notation asserts. -/
theorem hex04_length_of_lt (n : Nat) (h : n < 65536) : (hex04 n).length = 4 := by
  by_cases h0 : n = 0
  · simp [hex04, h0, String.length]
  · have hb : n < 16 ^ 4 := by norm_num at h ⊢; omega
    have hlen : (hexCore n n).length ≤ 4 := hexCore_length_le n n le_rfl hb
    simp only [hex04, h0, if_false, String.length]
    simp
    omega

theorem chunksAux_flatten {α : Type} (n : Nat) (hn : 1 ≤ n) :
    ∀ fuel (l : List α), l.length ≤ fuel → (chunksAux n fuel l).flatten = l := by
  intro fuel
  induction fuel with
  | zero =>
      intro l hl
      cases l with
      | nil => simp [chunksAux]
      | cons x xs => simp at hl
  | succ f ih =>
      intro l hl
      cases l with
      | nil => simp [chunksAux]
      | cons x xs =>
          have hdrop : ((x :: xs).drop n).length ≤ f := by
            rw [List.length_drop]
            simp only [List.length_cons] at hl ⊢
            omega
          simp only [chunksAux, List.flatten]
          rw [ih _ hdrop, List.take_append_drop]

theorem chunksAux_mem_length {α : Type} (n : Nat) (hn : 1 ≤ n) :
    ∀ fuel (l : List α) ch, ch ∈ chunksAux n fuel l → ch.length ≤ n ∧ ch ≠ [] := by
  intro fuel
  induction fuel with
  | zero =>
      intro l ch h
      cases l <;> simp [chunksAux] at h
  | succ f ih =>
      intro l ch h
      cases l with
      | nil => simp [chunksAux] at h
      | cons x xs =>
          simp only [chunksAux, List.mem_cons] at h
          rcases h with h | h
          · subst h
            constructor
            · rw [List.length_take]
              omega
            · cases n with
              | zero => omega
              | succ m => simp [List.take]
          · exact ih _ _ h

theorem chunksAux_sum_length {α : Type} (n : Nat) (hn : 1 ≤ n)
    (fuel : Nat) (l : List α) (hl : l.length ≤ fuel) :
    ((chunksAux n fuel l).map List.length).sum = l.length := by
  have h := chunksAux_flatten n hn fuel l hl
  calc ((chunksAux n fuel l).map List.length).sum
      = (chunksAux n fuel l).flatten.length := (List.length_flatten _).symm
    _ = l.length := by rw [h]


theorem alookup_isSome_of_mem {κ α : Type} [DecidableEq κ]
    (l : List (κ × α)) (k : κ) (v : α) (h : (k, v) ∈ l) :
    (alookup l k).isSome := by
  induction l with
  | nil => simp at h
  | cons hd t ih =>
      rcases List.mem_cons.mp h with rfl | hmem
      · simp [alookup]
      · obtain ⟨k₀, v₀⟩ := hd
        by_cases hk : k₀ = k <;> simp [alookup, hk, ih hmem]

theorem alookup_mem {κ α : Type} [DecidableEq κ]
    (l : List (κ × α)) (k : κ) (v : α) (h : alookup l k = some v) :
    (k, v) ∈ l := by
  induction l with
  | nil => simp [alookup] at h
  | cons hd t ih =>
      obtain ⟨k₀, v₀⟩ := hd
      by_cases hk : k₀ = k
      · subst hk
        simp [alookup] at h
        subst h
        simp
      · simp only [alookup, if_neg hk] at h
        exact List.mem_cons_of_mem _ (ih h)

theorem alookup_append {κ α : Type} [DecidableEq κ] :
    ∀ (l₁ l₂ : List (κ × α)) (k : κ),
      alookup (l₁ ++ l₂) k = (alookup l₁ k).or (alookup l₂ k) := by
  intro l₁ l₂ k
  induction l₁ with
  | nil => simp [alookup]
  | cons hd t ih =>
      obtain ⟨k₀, v₀⟩ := hd
      by_cases hk : k₀ = k <;> simp [alookup, hk, ih]

theorem upsert_length_of_found {κ α : Type} [DecidableEq κ] :
    ∀ (l : List (κ × α)) (k : κ) (v v' : α), alookup l k = some v →
      (upsert l k v').length = l.length := by
  intro l
  induction l with
  | nil => intro k v v' h; simp [alookup] at h
  | cons hd t ih =>
      intro k v v' h
      obtain ⟨k₀, v₀⟩ := hd
      by_cases hk : k₀ = k
      · simp [upsert, hk]
      · simp only [alookup, if_neg hk] at h
        simp only [upsert, if_neg hk, List.length_cons]
        rw [ih k v v' h]

theorem foldl_max_bound (l : List (Nat × PdfObj)) :
    ∀ acc : Nat, (∀ p ∈ l, p.1 ≤ l.foldl (fun m q => max m q.1) acc)
      ∧ acc ≤ l.foldl (fun m q => max m q.1) acc := by
  induction l with
  | nil => intro acc; exact ⟨by simp, le_rfl⟩
  | cons hd t ih =>
      intro acc
      obtain ⟨h1, h2⟩ := ih (max acc hd.1)
      refine ⟨?_, ?_⟩
      · intro p hp
        rcases List.mem_cons.mp hp with rfl | hm
        · exact le_trans (le_max_right acc p.1) h2
        · exact h1 p hm
      · exact le_trans (le_max_left acc hd.1) h2

theorem alookup_fresh_none (g : PdfGraph) :
    alookup g.objects (maxObjId g + 1) = none := by
  cases h : alookup g.objects (maxObjId g + 1) with
  | none => rfl
  | some v =>
      have hm := alookup_mem _ _ _ h
      have hb := (foldl_max_bound g.objects 0).1 _ hm
      unfold maxObjId at hb
      omega

theorem addObject_lookup_new (g : PdfGraph) (o : PdfObj) :
    alookup (addObject g o).2.objects (addObject g o).1 = some o := by
  simp only [addObject]
  rw [alookup_append, alookup_fresh_none]
  simp [alookup]

theorem addObject_lookup_old (g : PdfGraph) (o : PdfObj) (k : Nat)
    (v : PdfObj) (hk : alookup g.objects k = some v) :
    alookup (addObject g o).2.objects k = some v := by
  simp only [addObject]
  rw [alookup_append, hk]
  rfl

theorem getObject_ok_iff (g : PdfGraph) (id : Nat) (o : PdfObj) :
    getObject g id = .ok o ↔ alookup g.objects id = some o := by
  unfold getObject
  cases h : alookup g.objects id <;> simp

theorem alookup_gt_max_none (g : PdfGraph) (k : Nat)
    (hk : maxObjId g < k) : alookup g.objects k = none := by
  cases h : alookup g.objects k with
  | none => rfl
  | some v =>
      have hm := alookup_mem _ _ _ h
      have hb := (foldl_max_bound g.objects 0).1 _ hm
      unfold maxObjId at hk
      omega

theorem maxObjId_addObject (g : PdfGraph) (o : PdfObj) :
    maxObjId (addObject g o).2 = maxObjId g + 1 := by
  simp only [addObject, maxObjId, List.foldl_append, List.foldl_cons,
    List.foldl_nil]
  omega

theorem cloneStreams_spec :
    ∀ (l : List (List (String × PdfObj) × List Nat)) (g : PdfGraph),
    (cloneStreams g l).1.length = l.length
    ∧ maxObjId g ≤ maxObjId (cloneStreams g l).2
    ∧ (cloneStreams g l).2.trailer = g.trailer
    ∧ (∀ k v, alookup g.objects k = some v →
        alookup (cloneStreams g l).2.objects k = some v)
    ∧ (∀ p ∈ l.zip (cloneStreams g l).1, ∃ nid, p.2 = PdfObj.ref nid
        ∧ maxObjId g < nid
        ∧ alookup (cloneStreams g l).2.objects nid
            = some (streamNew p.1.1 p.1.2)) := by
  intro l
  induction l with
  | nil =>
      intro g
      exact ⟨rfl, le_rfl, rfl, fun k v hk => hk, by simp [cloneStreams]⟩
  | cons hd rest ih =>
      intro g
      obtain ⟨sd, sc⟩ := hd
      have hcs : cloneStreams g ((sd, sc) :: rest)
          = (PdfObj.ref (addObject g (streamNew sd sc)).1
              :: (cloneStreams (addObject g (streamNew sd sc)).2 rest).1,
            (cloneStreams (addObject g (streamNew sd sc)).2 rest).2) := rfl
      obtain ⟨ihlen, ihmax, ihtr, ihpres, ihzip⟩ :=
        ih (addObject g (streamNew sd sc)).2
      have hm1 : maxObjId (addObject g (streamNew sd sc)).2
          = maxObjId g + 1 := maxObjId_addObject _ _
      have hid : (addObject g (streamNew sd sc)).1 = maxObjId g + 1 := rfl
      rw [hcs]
      refine ⟨by simp [ihlen], by dsimp only; omega, ihtr.trans rfl, ?_, ?_⟩
      · intro k v hk
        exact ihpres _ _ (addObject_lookup_old _ _ _ _ hk)
      · intro p hp
        simp only [List.zip_cons_cons, List.mem_cons] at hp
        cases hp with
        | inl heq =>
            subst heq
            exact ⟨(addObject g (streamNew sd sc)).1, rfl, by omega,
              ihpres _ _ (addObject_lookup_new _ _)⟩
        | inr hmem =>
            obtain ⟨nid, href, hgt, hlook⟩ := ihzip p hmem
            exact ⟨nid, href, by omega, hlook⟩

theorem clonePageDict_graph (g : PdfGraph)
    (sdict : List (String × PdfObj)) :
    maxObjId g ≤ maxObjId (clonePageDict g sdict).2
    ∧ (clonePageDict g sdict).2.trailer = g.trailer
    ∧ ∀ k v, alookup g.objects k = some v →
        alookup (clonePageDict g sdict).2.objects k = some v := by
  unfold clonePageDict
  cases h : dictGet sdict "Contents" with
  | none => exact ⟨le_rfl, rfl, fun k v hk => hk⟩
  | some o =>
      cases o with
      | stream sd sc => exact ⟨le_rfl, rfl, fun k v hk => hk⟩
      | array arr =>
          obtain ⟨-, hmax, htr, hpres, -⟩ :=
            cloneStreams_spec (collectArrStreams g arr) g
          exact ⟨hmax, htr, hpres⟩
      | dict d => exact ⟨le_rfl, rfl, fun k v hk => hk⟩
      | ref r => exact ⟨le_rfl, rfl, fun k v hk => hk⟩
      | int i => exact ⟨le_rfl, rfl, fun k v hk => hk⟩
      | real q => exact ⟨le_rfl, rfl, fun k v hk => hk⟩
      | name n => exact ⟨le_rfl, rfl, fun k v hk => hk⟩

theorem appendKid_ok (g : PdfGraph) (newId catId pagesId : Nat)
    (catDict pagesDict : List (String × PdfObj)) (kids : List PdfObj)
    (cnt : Int)
    (hroot : alookup g.trailer "Root" = some (.ref catId))
    (hcat : alookup g.objects catId = some (.dict catDict))
    (hpg : dictGet catDict "Pages" = some (.ref pagesId))
    (hpd : alookup g.objects pagesId = some (.dict pagesDict))
    (hkids : dictGet pagesDict "Kids" = some (.array kids))
    (hcnt : dictGet pagesDict "Count" = some (.int cnt)) :
    appendKid g newId = .ok (setObject g pagesId (.dict
      (dictSet (dictSet pagesDict "Kids"
          (.array (kids ++ [.ref newId]))) "Count" (.int (cnt + 1))))) := by
  simp only [appendKid, hroot,
    (getObject_ok_iff g catId (PdfObj.dict catDict)).mpr hcat, hpg,
    (getObject_ok_iff g pagesId (PdfObj.dict pagesDict)).mpr hpd,
    hkids, hcnt]

theorem getDims_imgToStream (xo : ImageXObject) :
    getDims (imgToStream xo) = .ok (xo.width, xo.height) := by
  have h1 : alookup (upsert (upsert xo.sdict "Width" (PdfObj.int xo.width))
      "Height" (PdfObj.int xo.height)) "Width"
      = some (PdfObj.int xo.width) := by
    rw [alookup_upsert_ne _ _ _ _ (by decide : "Height" ≠ "Width"),
      alookup_upsert_self]
  have h2 : alookup (upsert (upsert xo.sdict "Width" (PdfObj.int xo.width))
      "Height" (PdfObj.int xo.height)) "Height"
      = some (PdfObj.int xo.height) := alookup_upsert_self _ _ _
  simp [getDims, imgToStream, dictGet, dictSet, h1, h2]

theorem getDims_ok_stream (o : PdfObj) (w h : Nat)
    (hok : getDims o = .ok (w, h)) : ∃ sd sc, o = .stream sd sc := by
  cases o with
  | stream sd sc => exact ⟨sd, sc, rfl⟩
  | dict d => exact absurd hok (by simp [getDims])
  | array a => exact absurd hok (by simp [getDims])
  | ref r => exact absurd hok (by simp [getDims])
  | int i => exact absurd hok (by simp [getDims])
  | real r => exact absurd hok (by simp [getDims])
  | name n => exact absurd hok (by simp [getDims])

theorem add_image_post (st : DocState) (page : Nat) (rn : String)
    (oid : Nat) (st3 : DocState)
    (hok : add_image_to_page_resources st page rn oid = .ok st3) :
    ∃ pid pdict, pageIdOf st.inner page = some pid
      ∧ alookup st.inner.objects pid = some (.dict pdict)
      ∧ ∃ nd, st3 = { st with inner := setObject st.inner pid (.dict nd) } := by
  unfold add_image_to_page_resources at hok
  cases hpid : pageIdOf st.inner page with
  | none =>
      rw [hpid] at hok
      exact absurd hok (by simp)
  | some pid =>
      rw [hpid] at hok
      dsimp only at hok
      cases hobj : getObject st.inner pid with
      | error e =>
          rw [hobj] at hok
          exact absurd hok (by simp)
      | ok o =>
          rw [hobj] at hok
          cases o with
          | dict pdict =>
              simp only [Except.ok.injEq] at hok
              exact ⟨pid, pdict, rfl, (getObject_ok_iff _ _ _).mp hobj,
                ⟨_, hok.symm⟩⟩
          | array a => exact absurd hok (by simp)
          | stream a b => exact absurd hok (by simp)
          | ref a => exact absurd hok (by simp)
          | int a => exact absurd hok (by simp)
          | real a => exact absurd hok (by simp)
          | name a => exact absurd hok (by simp)

theorem imageTagStep_spec (oid w h : Nat) (st : DocState) (page : Nat)
    (name : String) (w' h' : Nat) (stO : DocState)
    (hok : imageTagStep oid w h st page = .ok (name, w', h', stO)) :
    w' = w ∧ h' = h
    ∧ stO.embedded_images = st.embedded_images
    ∧ (∃ pres, alookup stO.page_image_resources page = some pres
        ∧ List.find? (fun p => p.2 = oid) pres = some (name, oid))
    ∧ imageTagStep oid w h stO page = .ok (name, w, h, stO)
    ∧ (∀ k sd sc, alookup st.inner.objects k = some (.stream sd sc) →
        alookup stO.inner.objects k = some (.stream sd sc))
    ∧ stO.inner.objects.length = st.inner.objects.length := by
  unfold imageTagStep at hok
  dsimp only at hok
  cases hfind : List.find? (fun p => p.2 = oid)
      ((alookup st.page_image_resources page).getD []) with
  | some p =>
      rw [hfind] at hok
      simp only [Except.ok.injEq, Prod.mk.injEq] at hok
      obtain ⟨hn, hw, hh, hst⟩ := hok
      have hp2 : p.2 = oid := by
        have := List.find?_some hfind
        simpa using this
      have hpair : p = (name, oid) := by
        rw [Prod.ext_iff]
        exact ⟨hn, hp2⟩
      have hsp : alookup stO.page_image_resources page
          = some ((alookup st.page_image_resources page).getD []) := by
        rw [← hst]
        exact alookup_upsert_self _ _ _
      refine ⟨hw.symm, hh.symm, by rw [← hst], ?_, ?_, ?_, ?_⟩
      · exact ⟨_, hsp, by rw [← hpair]; exact hfind⟩
      · unfold imageTagStep
        dsimp only
        rw [hsp]
        simp only [Option.getD_some]
        rw [hfind, upsert_lookup_id _ _ _ hsp]
        dsimp only
        rw [hn]
      · intro k sd sc hk
        rw [← hst]
        exact hk
      · rw [← hst]
  | none =>
      rw [hfind] at hok
      dsimp only at hok
      split at hok
      · exact absurd hok (by simp)
      · rename_i st3 heq
        simp only [Except.ok.injEq, Prod.mk.injEq] at hok
        obtain ⟨hn, hw, hh, hst⟩ := hok
        obtain ⟨pid, pdict, hpid, hpdict, nd, hst3⟩ := add_image_post _ _ _ _ _ heq
        dsimp only at hpid hpdict
        have hpir : stO.page_image_resources
            = upsert (upsert st.page_image_resources page
                ((alookup st.page_image_resources page).getD [])) page
                (((alookup st.page_image_resources page).getD [])
                  ++ [("Im" ++ toString st.next_image_resource, oid)]) := by
          rw [← hst, hst3]
        have hemb : stO.embedded_images = st.embedded_images := by
          rw [← hst, hst3]
        have hfind3 : List.find? (fun p => p.2 = oid)
            ((((alookup st.page_image_resources page).getD []))
              ++ [("Im" ++ toString st.next_image_resource, oid)])
            = some ("Im" ++ toString st.next_image_resource, oid) := by
          rw [List.find?_append, hfind]
          simp
        have hsp3 : alookup stO.page_image_resources page
            = some (((alookup st.page_image_resources page).getD [])
              ++ [("Im" ++ toString st.next_image_resource, oid)]) := by
          rw [hpir]
          exact alookup_upsert_self _ _ _
        refine ⟨hw.symm, hh.symm, hemb, ?_, ?_, ?_, ?_⟩
        · exact ⟨_, hsp3, by rw [hfind3, hn]⟩
        · unfold imageTagStep
          dsimp only
          rw [hsp3]
          simp only [Option.getD_some]
          rw [hfind3, upsert_lookup_id _ _ _ hsp3]
          dsimp only
          rw [hn]
        · intro k sd sc hk
          rw [← hst, hst3]
          simp only [setObject]
          have hne : pid ≠ k := by
            intro hc
            subst hc
            rw [hk] at hpdict
            exact PdfObj.noConfusion (Option.some.inj hpdict)
          rw [alookup_upsert_ne _ _ _ _ hne]
          exact hk
        · rw [← hst, hst3]
          simp only [setObject]
          exact upsert_length_of_found _ _ _ _ hpdict

theorem getObject_error_shape (g : PdfGraph) (id : Nat) (e : PdfError)
    (h : getObject g id = .error e) : e = .LopdfError "object not found" := by
  unfold getObject at h
  cases halo : alookup g.objects id <;> rw [halo] at h <;> simp_all

theorem get_font_data_error_shape (st : DocState) (n : String) (e : PdfError)
    (h : get_font_data st n = .error e) : e = .FontNotFound n := by
  unfold get_font_data at h
  cases h1 : st.font_families.findSome? (fun p => famFind p.2 n) <;>
    rw [h1] at h
  · cases h2 : alookup st.fonts n <;> rw [h2] at h <;> simp_all
  · simp_all

theorem update_font_data_error_shape (st : DocState) (n : String)
    (f : FontData → FontData) (e : PdfError)
    (h : update_font_data st n f = .error e) : e = .FontNotFound n := by
  unfold update_font_data at h
  cases h1 : famsUpdate n f st.font_families <;> rw [h1] at h
  · cases h2 : fontsUpdate n f st.fonts <;> rw [h2] at h <;> simp_all
  · simp_all

theorem extract_height_error_shape (mb : List PdfObj) (e : PdfError)
    (h : extract_height_from_media_box mb = .error e) :
    ∃ m, e = .ParseError m := by
  unfold extract_height_from_media_box at h
  split at h
  · split at h
    · simp at h
    · simp only [Except.error.injEq] at h
      exact ⟨_, h.symm⟩
    · simp only [Except.error.injEq] at h
      exact ⟨_, h.symm⟩
  · simp only [Except.error.injEq] at h
    exact ⟨_, h.symm⟩

theorem mediaBoxWalk_error_shape (g : PdfGraph) :
    ∀ (fuel curId : Nat) (e : PdfError),
      mediaBoxWalk g fuel curId = .error e →
      (∃ m, e = .ParseError m) ∨ (∃ m, e = .LopdfError m) := by
  intro fuel
  induction fuel with
  | zero => intro curId e h; simp [mediaBoxWalk] at h
  | succ f ih =>
      intro curId e h
      simp only [mediaBoxWalk] at h
      split at h
      · rename_i e' heq
        simp only [Except.error.injEq] at h
        subst h
        exact .inr ⟨_, getObject_error_shape _ _ _ heq⟩
      · split at h
        · simp at h
        · split at h
          · rename_i e' heq
            simp only [Except.error.injEq] at h
            subst h
            exact .inr ⟨_, getObject_error_shape _ _ _ heq⟩
          · simp at h
          · simp only [Except.error.injEq] at h
            exact .inl ⟨_, h.symm⟩
        · simp only [Except.error.injEq] at h
          exact .inl ⟨_, h.symm⟩
        · split at h
          · exact ih _ _ h
          · simp at h
      · simp only [Except.error.injEq] at h
        exact .inl ⟨_, h.symm⟩

theorem pageIdOf_of_valid (g : PdfGraph) (page : Nat) (h0 : page ≠ 0)
    (hle : page ≤ (getPages g).length) :
    ∃ pid, pageIdOf g page = some pid := by
  unfold pageIdOf
  rw [if_neg h0]
  cases h : (getPages g).get? (page - 1) with
  | none =>
      have := List.get?_eq_none.mp h
      omega
  | some pid => exact ⟨pid, rfl⟩

theorem get_page_height_error_shape (g : PdfGraph) (page : Nat)
    (h0 : page ≠ 0) (hle : page ≤ (getPages g).length) (e : PdfError)
    (h : get_page_height g page = .error e) :
    (∃ m, e = .ParseError m) ∨ (∃ m, e = .LopdfError m) := by
  obtain ⟨pid, hpid⟩ := pageIdOf_of_valid g page h0 hle
  unfold get_page_height at h
  rw [hpid] at h
  cases hmb : get_inherited_media_box g pid with
  | error e2 =>
      simp only [hmb, Except.error.injEq] at h
      subst h
      exact mediaBoxWalk_error_shape g 10 pid _ hmb
  | ok mb =>
      simp only [hmb] at h
      exact .inl (extract_height_error_shape _ _ h)

theorem totalWidthLoop_error_shape (st : DocState) (fs : ℚ) :
    ∀ (segs : List TextSegment) (acc : ℚ) (e : PdfError),
      totalWidthLoop st fs segs acc = .error e → ∃ n, e = .FontNotFound n := by
  intro segs
  induction segs with
  | nil => intro acc e h; simp [totalWidthLoop] at h
  | cons s rest ih =>
      intro acc e h
      simp only [totalWidthLoop] at h
      cases hgf : get_font_data st s.font_name with
      | error e' =>
          simp only [hgf, Except.error.injEq] at h
          subst h
          exact ⟨_, get_font_data_error_shape _ _ _ hgf⟩
      | ok fd =>
          simp only [hgf] at h
          exact ih _ _ h

theorem renderSegments_error_shape (pdf_y : ℚ) (page : Nat) :
    ∀ (segs : List TextSegment) (cx : ℚ) (st : DocState) (e : PdfError),
      renderSegments pdf_y page segs cx st = .error e →
      ∃ n, e = .FontNotFound n := by
  intro segs
  induction segs with
  | nil => intro cx st e h; simp [renderSegments] at h
  | cons s rest ih =>
      intro cx st e h
      simp only [renderSegments] at h
      cases hup : update_font_data st s.font_name (fun fd => add_chars fd s.text) with
      | error e' =>
          simp only [hup, Except.error.injEq] at h
          subst h
          exact ⟨_, update_font_data_error_shape _ _ _ _ hup⟩
      | ok st1 =>
          simp only [hup] at h
          cases hgf : get_font_data (get_or_create_font_ref st1 s.font_name page).2
              s.font_name with
          | error e' =>
              simp only [hgf, Except.error.injEq] at h
              subst h
              exact ⟨_, get_font_data_error_shape _ _ _ hgf⟩
          | ok fd =>
              simp only [hgf] at h
              exact ih _ _ _ h

theorem optNameIs_true_iff (v : Option FontData) (n : String) :
    optNameIs v n = true ↔ ∃ fd, v = some fd ∧ fd.name = n := by
  cases v with
  | none => simp [optNameIs]
  | some fd => simp [optNameIs]

theorem famFindAux_none_of_not (v : Option FontData) (n : String)
    (h : optNameIs v n = false) : famFindAux v n = none := by
  cases v with
  | none => rfl
  | some fd =>
      simp only [optNameIs, decide_eq_false_iff_not] at h
      simp [famFindAux, h]

theorem famFindAux_some (fd : FontData) (n : String) (h : fd.name = n) :
    famFindAux (some fd) n = some fd := by
  simp [famFindAux, h]

theorem famFindAux_update_ne (fd : FontData) (n m : String)
    (f : FontData → FontData) (hf : ∀ fd, (f fd).name = fd.name)
    (hname : fd.name = n) (hm : m ≠ n) :
    famFindAux (some (f fd)) m = famFindAux (some fd) m := by
  have h1 : ¬(f fd).name = m := by
    rw [hf, hname]
    exact fun hc => hm hc.symm
  have h2 : ¬fd.name = m := by
    rw [hname]
    exact fun hc => hm hc.symm
  simp [famFindAux, h1, h2]

theorem famUpdate_of_find_none (fam : FontFamily) (n : String)
    (f : FontData → FontData) (h : famFind fam n = none) :
    famUpdate fam n f = none := by
  simp only [famFind] at h
  rcases Option.or_eq_none.mp h with ⟨hr, h⟩
  rcases Option.or_eq_none.mp h with ⟨hb, h⟩
  rcases Option.or_eq_none.mp h with ⟨hi, hbi⟩
  have aux : ∀ v, famFindAux v n = none → optNameIs v n = false := by
    intro v hv
    cases v with
    | none => rfl
    | some fd =>
        simp only [famFindAux] at hv
        split_ifs at hv with hc
        simp [optNameIs, hc]
  simp [famUpdate, aux _ hr, aux _ hb, aux _ hi, aux _ hbi]

theorem famUpdate_of_find_some (fam : FontFamily) (n : String)
    (f : FontData → FontData) (hf : ∀ fd, (f fd).name = fd.name)
    (fd : FontData) (h : famFind fam n = some fd) :
    ∃ fam', famUpdate fam n f = some fam'
      ∧ famFind fam' n = some (f fd)
      ∧ ∀ m, m ≠ n → famFind fam' m = famFind fam m := by
  by_cases h1 : optNameIs fam.regular n = true
  · obtain ⟨fd0, hv, hn0⟩ := (optNameIs_true_iff _ _).mp h1
    have hfd : fd0 = fd := by
      simp only [famFind, hv, famFindAux_some fd0 n hn0, Option.or_some,
        Option.some.injEq] at h
      exact h
    subst hfd
    refine ⟨{ fam with regular := fam.regular.map f }, ?_, ?_, ?_⟩
    · simp [famUpdate, h1]
    · simp only [famFind, hv, Option.map_some']
      rw [famFindAux_some (f fd0) n (by rw [hf]; exact hn0)]
      simp [Option.or]
    · intro m hm
      simp only [famFind, hv, Option.map_some']
      rw [famFindAux_update_ne fd0 n m f hf hn0 hm]
  · have hr : famFindAux fam.regular n = none :=
      famFindAux_none_of_not _ _ (by simpa using h1)
    by_cases h2 : optNameIs fam.bold n = true
    · obtain ⟨fd0, hv, hn0⟩ := (optNameIs_true_iff _ _).mp h2
      have hfd : fd0 = fd := by
        simp only [famFind, hr, hv, famFindAux_some fd0 n hn0,
          Option.none_or, Option.or_some, Option.some.injEq] at h
        exact h
      subst hfd
      refine ⟨{ fam with bold := fam.bold.map f }, ?_, ?_, ?_⟩
      · simp [famUpdate, h1, h2]
      · simp only [famFind, hv, Option.map_some', hr]
        rw [famFindAux_some (f fd0) n (by rw [hf]; exact hn0)]
        simp [Option.or]
      · intro m hm
        simp only [famFind, hv, Option.map_some']
        rw [famFindAux_update_ne fd0 n m f hf hn0 hm]
    · have hb : famFindAux fam.bold n = none :=
        famFindAux_none_of_not _ _ (by simpa using h2)
      by_cases h3 : optNameIs fam.italic n = true
      · obtain ⟨fd0, hv, hn0⟩ := (optNameIs_true_iff _ _).mp h3
        have hfd : fd0 = fd := by
          simp only [famFind, hr, hb, hv, famFindAux_some fd0 n hn0,
            Option.none_or, Option.or_some, Option.some.injEq] at h
          exact h
        subst hfd
        refine ⟨{ fam with italic := fam.italic.map f }, ?_, ?_, ?_⟩
        · simp [famUpdate, h1, h2, h3]
        · simp only [famFind, hv, Option.map_some', hr, hb]
          rw [famFindAux_some (f fd0) n (by rw [hf]; exact hn0)]
          simp [Option.or]
        · intro m hm
          simp only [famFind, hv, Option.map_some']
          rw [famFindAux_update_ne fd0 n m f hf hn0 hm]
      · have hi : famFindAux fam.italic n = none :=
          famFindAux_none_of_not _ _ (by simpa using h3)
        have h4 : optNameIs fam.bold_italic n = true := by
          by_contra h4
          have hbi : famFindAux fam.bold_italic n = none :=
            famFindAux_none_of_not _ _ (by simpa using h4)
          simp [famFind, hr, hb, hi, hbi, Option.or] at h
        obtain ⟨fd0, hv, hn0⟩ := (optNameIs_true_iff _ _).mp h4
        have hfd : fd0 = fd := by
          simp only [famFind, hr, hb, hi, hv, famFindAux_some fd0 n hn0,
            Option.none_or, Option.some.injEq] at h
          exact h
        subst hfd
        refine ⟨{ fam with bold_italic := fam.bold_italic.map f }, ?_, ?_, ?_⟩
        · simp [famUpdate, h1, h2, h3, h4]
        · simp only [famFind, hv, Option.map_some', hr, hb, hi]
          rw [famFindAux_some (f fd0) n (by rw [hf]; exact hn0)]
          simp [Option.or]
        · intro m hm
          simp only [famFind, hv, Option.map_some']
          rw [famFindAux_update_ne fd0 n m f hf hn0 hm]

theorem create_subset_name (fd : FontData) :
    (create_subset fd).name = fd.name := by
  unfold create_subset
  split <;> rfl

theorem create_subset_of_empty (fd : FontData) (h : fd.usedChars = []) :
    create_subset fd = fd := by
  unfold create_subset
  rw [if_pos h]

theorem famFindAux_some_inv (v : Option FontData) (n : String)
    (fd : FontData) (h : famFindAux v n = some fd) :
    v = some fd ∧ fd.name = n := by
  cases v with
  | none => simp [famFindAux] at h
  | some fd0 =>
      simp only [famFindAux] at h
      split_ifs at h with hc
      · simp only [Option.some.injEq] at h
        subst h
        exact ⟨rfl, hc⟩

theorem famFind_some_inv (fam : FontFamily) (n : String) (fd : FontData)
    (h : famFind fam n = some fd) :
    fd.name = n ∧ (fam.regular = some fd ∨ fam.bold = some fd
      ∨ fam.italic = some fd ∨ fam.bold_italic = some fd) := by
  simp only [famFind, Option.or_eq_some] at h
  rcases h with h | ⟨_, h | ⟨_, h | ⟨_, h⟩⟩⟩ <;>
    obtain ⟨hv, hn⟩ := famFindAux_some_inv _ _ _ h
  · exact ⟨hn, .inl hv⟩
  · exact ⟨hn, .inr (.inl hv)⟩
  · exact ⟨hn, .inr (.inr (.inl hv))⟩
  · exact ⟨hn, .inr (.inr (.inr hv))⟩

theorem famFind_isSome_of_variant (fam : FontFamily) (v : FontData)
    (m : String)
    (hslot : fam.regular = some v ∨ fam.bold = some v
      ∨ fam.italic = some v ∨ fam.bold_italic = some v)
    (hname : v.name = m) : (famFind fam m).isSome := by
  simp only [famFind, Option.isSome_or]
  rcases hslot with hv | hv | hv | hv <;>
    rw [hv, famFindAux_some v m hname] <;> simp

theorem famsUpdate_of_none (n : String) (f : FontData → FontData) :
    ∀ fams : List (String × FontFamily),
      fams.findSome? (fun p => famFind p.2 n) = none →
      famsUpdate n f fams = none := by
  intro fams
  induction fams with
  | nil => intro _; rfl
  | cons hd t ih =>
      intro h
      obtain ⟨k, fam⟩ := hd
      rw [List.findSome?_cons] at h
      cases hff : famFind fam n with
      | some fd => rw [hff] at h; simp at h
      | none =>
          rw [hff] at h
          simp only [famsUpdate, famUpdate_of_find_none fam n f hff]
          rw [ih (by simpa using h)]
          rfl

theorem famsUpdate_of_some (n : String) (f : FontData → FontData)
    (hf : ∀ fd, (f fd).name = fd.name) :
    ∀ (fams : List (String × FontFamily)) (fd : FontData),
      fams.findSome? (fun p => famFind p.2 n) = some fd →
      ∃ fams', famsUpdate n f fams = some fams'
        ∧ fams'.findSome? (fun p => famFind p.2 n) = some (f fd)
        ∧ ∀ m, m ≠ n → fams'.findSome? (fun p => famFind p.2 m)
            = fams.findSome? (fun p => famFind p.2 m) := by
  intro fams
  induction fams with
  | nil => intro fd h; simp at h
  | cons hd t ih =>
      intro fd h
      obtain ⟨k, fam⟩ := hd
      rw [List.findSome?_cons] at h
      cases hff : famFind fam n with
      | some fd0 =>
          rw [hff] at h
          simp only [Option.some.injEq] at h
          subst h
          obtain ⟨fam', hupd, hfind, hother⟩ :=
            famUpdate_of_find_some fam n f hf fd0 hff
          refine ⟨(k, fam') :: t, ?_, ?_, ?_⟩
          · simp [famsUpdate, hupd]
          · rw [List.findSome?_cons]
            simp [hfind]
          · intro m hm
            rw [List.findSome?_cons, List.findSome?_cons]
            simp only [hother m hm]
      | none =>
          rw [hff] at h
          simp only [] at h
          obtain ⟨t', hupd, hfind, hother⟩ := ih fd h
          refine ⟨(k, fam) :: t', ?_, ?_, ?_⟩
          · simp [famsUpdate, famUpdate_of_find_none fam n f hff, hupd]
          · rw [List.findSome?_cons]
            simp [hff, hfind]
          · intro m hm
            rw [List.findSome?_cons, List.findSome?_cons]
            cases hm2 : famFind fam m with
            | some fd2 => rfl
            | none => simpa using hother m hm

theorem fontsUpdate_of_none (n : String) (f : FontData → FontData) :
    ∀ fonts : List (String × FontData),
      alookup fonts n = none → fontsUpdate n f fonts = none := by
  intro fonts
  induction fonts with
  | nil => intro _; rfl
  | cons hd t ih =>
      intro h
      obtain ⟨k, fd⟩ := hd
      by_cases hk : k = n
      · subst hk
        simp [alookup] at h
      · simp only [alookup, if_neg hk] at h
        simp only [fontsUpdate, if_neg hk]
        rw [ih h]
        rfl

theorem fontsUpdate_of_some (n : String) (f : FontData → FontData) :
    ∀ (fonts : List (String × FontData)) (fd : FontData),
      alookup fonts n = some fd →
      ∃ fonts', fontsUpdate n f fonts = some fonts'
        ∧ alookup fonts' n = some (f fd)
        ∧ ∀ m, m ≠ n → alookup fonts' m = alookup fonts m := by
  intro fonts
  induction fonts with
  | nil => intro fd h; simp [alookup] at h
  | cons hd t ih =>
      intro fd h
      obtain ⟨k, fd0⟩ := hd
      by_cases hk : k = n
      · subst hk
        simp [alookup] at h
        rw [← h]
        refine ⟨(k, f fd0) :: t, ?_, ?_, ?_⟩
        · simp [fontsUpdate]
        · simp [alookup]
        · intro m hm
          simp only [alookup]
          rw [if_neg (fun hc => hm hc.symm), if_neg (fun hc => hm hc.symm)]
      · simp only [alookup, if_neg hk] at h
        obtain ⟨t', hupd, hfind, hother⟩ := ih fd h
        refine ⟨(k, fd0) :: t', ?_, ?_, ?_⟩
        · simp only [fontsUpdate, if_neg hk]
          rw [hupd]
          rfl
        · simp only [alookup, if_neg hk]
          exact hfind
        · intro m hm
          by_cases hk2 : k = m
          · subst hk2
            simp [alookup]
          · simp only [alookup, if_neg hk2]
            exact hother m hm

theorem mem_dedupConsec : ∀ (l : List String) (a : String),
    a ∈ dedupConsec l ↔ a ∈ l := by
  intro l
  induction l with
  | nil => simp [dedupConsec]
  | cons x t ih =>
      cases t with
      | nil => simp [dedupConsec]
      | cons y t2 =>
          intro a
          simp only [dedupConsec]
          split_ifs with hxy
          · subst hxy
            rw [ih a]
            simp
          · simp [List.mem_cons, ih a]

theorem nodup_dedupConsec : ∀ l : List String,
    l.Sorted (fun a b : String => a ≤ b) → (dedupConsec l).Nodup := by
  intro l
  induction l with
  | nil => intro _; simp [dedupConsec]
  | cons x t ih =>
      intro hs
      cases t with
      | nil => simp [dedupConsec]
      | cons y t2 =>
          have hs' : (y :: t2).Sorted (fun a b : String => a ≤ b) :=
            List.Sorted.of_cons hs
          simp only [dedupConsec]
          split_ifs with hxy
          · exact ih hs'
          · rw [List.nodup_cons]
            refine ⟨?_, ih hs'⟩
            intro hmem
            rw [mem_dedupConsec] at hmem
            rcases List.mem_cons.mp hmem with rfl | hmem2
            · exact hxy rfl
            · have hxy' : x ≤ y := (List.sorted_cons.mp hs).1 y (by simp)
              have hyx : y ≤ x := (List.sorted_cons.mp hs').1 x hmem2
              exact hxy (le_antisymm hxy' hyx)

theorem subsetNames_nodup (st : DocState) : (subsetNames st).Nodup :=
  nodup_dedupConsec _ (List.sorted_insertionSort _ _)

theorem mem_subsetNames (st : DocState) (m : String) :
    m ∈ subsetNames st ↔
      m ∈ st.font_families.flatMap (fun p => familyUsedNames p.2)
        ++ st.fonts.filterMap
            (fun p => if p.2.usedChars = [] then none else some p.1) := by
  unfold subsetNames
  rw [mem_dedupConsec, List.mem_insertionSort]

theorem subsetNames_findable (st : DocState) :
    ∀ m ∈ subsetNames st, ∃ fdm, get_font_data st m = .ok fdm := by
  intro m hm
  rw [mem_subsetNames, List.mem_append] at hm
  rcases hm with hm | hm
  · rw [List.mem_flatMap] at hm
    obtain ⟨p, hp, hmn⟩ := hm
    unfold familyUsedNames at hmn
    rw [List.mem_filterMap] at hmn
    obtain ⟨v, hv, hveq⟩ := hmn
    split_ifs at hveq with hu
    · simp only [Option.some.injEq] at hveq
      rw [List.reduceOption_mem_iff] at hv
      have hv' : some v = p.2.regular ∨ some v = p.2.bold
          ∨ some v = p.2.italic ∨ some v = p.2.bold_italic := by
        simpa using hv
      have hslot : p.2.regular = some v ∨ p.2.bold = some v
          ∨ p.2.italic = some v ∨ p.2.bold_italic = some v := by
        rcases hv' with h | h | h | h
        · exact .inl h.symm
        · exact .inr (.inl h.symm)
        · exact .inr (.inr (.inl h.symm))
        · exact .inr (.inr (.inr h.symm))
      have hsome := famFind_isSome_of_variant p.2 v m hslot hveq
      unfold get_font_data
      cases hfs : st.font_families.findSome? (fun q => famFind q.2 m) with
      | some fd => exact ⟨fd, rfl⟩
      | none =>
          rw [List.findSome?_eq_none_iff] at hfs
          have := hfs p hp
          rw [this] at hsome
          simp at hsome
  · rw [List.mem_filterMap] at hm
    obtain ⟨p, hp, hpe⟩ := hm
    split_ifs at hpe with hu
    · simp only [Option.some.injEq] at hpe
      subst hpe
      have hsome := alookup_isSome_of_mem st.fonts p.1 p.2 hp
      unfold get_font_data
      cases hfs : st.font_families.findSome? (fun q => famFind q.2 p.1) with
      | some fd => exact ⟨fd, rfl⟩
      | none =>
          cases hal : alookup st.fonts p.1 with
          | none =>
              rw [hal] at hsome
              simp at hsome
          | some fd => exact ⟨fd, rfl⟩

theorem mem_subsetNames_of_found (st : DocState) (n : String) (fd : FontData)
    (h : get_font_data st n = .ok fd) (hu : fd.usedChars ≠ []) :
    n ∈ subsetNames st := by
  rw [mem_subsetNames, List.mem_append]
  unfold get_font_data at h
  cases hfs : st.font_families.findSome? (fun p => famFind p.2 n) with
  | some fd0 =>
      rw [hfs] at h
      simp only [Except.ok.injEq] at h
      rw [← h] at hu
      left
      obtain ⟨p, hp, hpf⟩ := List.exists_of_findSome?_eq_some hfs
      obtain ⟨hname, hslot⟩ := famFind_some_inv p.2 n fd0 hpf
      rw [List.mem_flatMap]
      refine ⟨p, hp, ?_⟩
      unfold familyUsedNames
      rw [List.mem_filterMap]
      refine ⟨fd0, ?_, ?_⟩
      · rw [List.reduceOption_mem_iff]
        rcases hslot with hs | hs | hs | hs <;> simp [hs]
      · rw [if_neg hu, hname]
  | none =>
      rw [hfs] at h
      cases hal : alookup st.fonts n with
      | none =>
          rw [hal] at h
          simp at h
      | some fd0 =>
          rw [hal] at h
          simp only [Except.ok.injEq] at h
          rw [← h] at hu
          right
          rw [List.mem_filterMap]
          exact ⟨(n, fd0), alookup_mem st.fonts n fd0 hal, by rw [if_neg hu]⟩

theorem update_font_data_spec (st : DocState) (n : String)
    (f : FontData → FontData) (hf : ∀ fd, (f fd).name = fd.name)
    (fd : FontData) (h : get_font_data st n = .ok fd) :
    ∃ st', update_font_data st n f = .ok st'
      ∧ get_font_data st' n = .ok (f fd)
      ∧ ∀ m, m ≠ n → get_font_data st' m = get_font_data st m := by
  unfold get_font_data at h
  cases hfs : st.font_families.findSome? (fun p => famFind p.2 n) with
  | some fd0 =>
      rw [hfs] at h
      simp only [Except.ok.injEq] at h
      subst h
      obtain ⟨fams', hupd, hfind, hother⟩ :=
        famsUpdate_of_some n f hf st.font_families fd0 hfs
      refine ⟨{ st with font_families := fams' }, ?_, ?_, ?_⟩
      · simp [update_font_data, hupd]
      · simp only [get_font_data]
        rw [hfind]
      · intro m hm
        simp only [get_font_data]
        rw [hother m hm]
  | none =>
      rw [hfs] at h
      cases hal : alookup st.fonts n with
      | none =>
          rw [hal] at h
          simp at h
      | some fd0 =>
          rw [hal] at h
          simp only [Except.ok.injEq] at h
          subst h
          obtain ⟨fonts', hupd, hfind, hother⟩ :=
            fontsUpdate_of_some n f st.fonts fd0 hal
          refine ⟨{ st with fonts := fonts' }, ?_, ?_, ?_⟩
          · simp [update_font_data, famsUpdate_of_none n f st.font_families hfs,
              hupd]
          · simp only [get_font_data]
            rw [hfs, hfind]
          · intro m hm
            simp only [get_font_data]
            rw [hother m hm]

theorem subsetFold_spec :
    ∀ (ns : List String) (st : DocState),
      ns.Nodup →
      (∀ m ∈ ns, ∃ fdm, get_font_data st m = .ok fdm) →
      ∃ st', ns.foldlM (fun s nm => update_font_data s nm create_subset) st
          = .ok st'
        ∧ ∀ n fd, get_font_data st n = .ok fd →
            get_font_data st' n
              = .ok (if n ∈ ns then create_subset fd else fd) := by
  intro ns
  induction ns with
  | nil =>
      intro st _ _
      refine ⟨st, rfl, ?_⟩
      intro n fd h
      simpa using h
  | cons m ms ih =>
      intro st hnd hfind
      obtain ⟨fdm, hm⟩ := hfind m (List.mem_cons_self m ms)
      obtain ⟨st1, hupd, hst1m, hst1other⟩ :=
        update_font_data_spec st m create_subset create_subset_name fdm hm
      have hfind1 : ∀ k ∈ ms, ∃ fdk, get_font_data st1 k = .ok fdk := by
        intro k hk
        by_cases hkm : k = m
        · subst hkm
          exact ⟨create_subset fdm, hst1m⟩
        · obtain ⟨fdk, hfdk⟩ := hfind k (List.mem_cons_of_mem m hk)
          exact ⟨fdk, by rw [hst1other k hkm]; exact hfdk⟩
      obtain ⟨st', hfold, hchar⟩ := ih st1 (List.Nodup.of_cons hnd) hfind1
      refine ⟨st', ?_, ?_⟩
      · rw [List.foldlM_cons, hupd]
        simpa using hfold
      · intro n fd h
        by_cases hnm : n = m
        · subst hnm
          have hfd : fdm = fd := by
            rw [hm] at h
            exact Except.ok.inj h
          subst hfd
          have hmem : n ∉ ms := (List.nodup_cons.mp hnd).1
          have := hchar n (create_subset fdm) hst1m
          rw [if_neg hmem] at this
          rw [this]
          simp
        · have h1 : get_font_data st1 n = .ok fd := by
            rw [hst1other n hnm]
            exact h
          have := hchar n fd h1
          rw [this]
          by_cases hms : n ∈ ms
          · rw [if_pos hms, if_pos (List.mem_cons_of_mem m hms)]
          · rw [if_neg hms, if_neg (by simp [hnm, hms])]

theorem alookup_map_self {κ α : Type} [DecidableEq κ] (g : κ → α) :
    ∀ (l : List κ) (c : κ), c ∈ l →
      (alookup (l.map fun x => (x, g x)) c).isSome := by
  intro l
  induction l with
  | nil => simp
  | cons x t ih =>
      intro c hc
      by_cases hx : x = c
      · simp [alookup, hx]
      · rcases List.mem_cons.mp hc with rfl | hm
        · exact absurd rfl hx
        · simp [alookup, hx, ih c hm]

theorem create_subset_coverage (fd : FontData) (hu : fd.usedChars ≠ []) :
    ∃ s, (create_subset fd).subset = some s
      ∧ 0 ∈ s.glyphs
      ∧ (∀ c ∈ fd.usedChars, (glyph_id fd c).getD 0 ∈ s.glyphs)
      ∧ ∀ c ∈ fd.usedChars, (alookup s.remap c).isSome := by
  unfold create_subset
  rw [if_neg hu]
  refine ⟨_, rfl, ?_, ?_, ?_⟩
  · rw [List.mem_insertionSort, List.mem_dedup]
    simp
  · intro c hc
    rw [List.mem_insertionSort, List.mem_dedup]
    simp only [List.mem_cons, List.mem_map]
    exact .inr ⟨c, hc, rfl⟩
  · intro c hc
    exact alookup_map_self _ fd.usedChars c hc

theorem update_font_data_buffered (st : DocState) (n : String)
    (f : FontData → FontData) (st' : DocState)
    (h : update_font_data st n f = .ok st') :
    st'.buffered_text_ops = st.buffered_text_ops := by
  unfold update_font_data at h
  cases h1 : famsUpdate n f st.font_families <;> rw [h1] at h
  · cases h2 : fontsUpdate n f st.fonts <;> rw [h2] at h
    · exact absurd h (by simp)
    · simp only [Except.ok.injEq] at h
      rw [← h]
  · simp only [Except.ok.injEq] at h
    rw [← h]

theorem get_or_create_font_ref_buffered (st : DocState) (n : String)
    (page : Nat) :
    ((get_or_create_font_ref st n page).2).buffered_text_ops
      = st.buffered_text_ops := by
  simp only [get_or_create_font_ref]
  cases alookup ((alookup st.page_font_resources page).getD []) n <;> rfl

theorem renderSegments_ops (pdf_y : ℚ) (page : Nat) :
    ∀ (segs : List TextSegment) (cx : ℚ) (st st' : DocState),
      renderSegments pdf_y page segs cx st = .ok st' →
      ∃ ops, st'.buffered_text_ops = st.buffered_text_ops ++ ops ∧
        ∀ op ∈ ops, op.y = pdf_y ∧ op.page = page := by
  intro segs
  induction segs with
  | nil =>
      intro cx st st' h
      simp only [renderSegments, Except.ok.injEq] at h
      subst h
      exact ⟨[], by simp, by simp⟩
  | cons s rest ih =>
      intro cx st st' h
      simp only [renderSegments] at h
      cases hup : update_font_data st s.font_name
          (fun fd => add_chars fd s.text) with
      | error e => simp [hup] at h
      | ok st1 =>
          simp only [hup] at h
          cases hgf : get_font_data (get_or_create_font_ref st1 s.font_name page).2
              s.font_name with
          | error e => simp [hgf] at h
          | ok fd =>
              simp only [hgf] at h
              obtain ⟨ops, hops, hall⟩ := ih _ _ _ h
              refine ⟨{ text := s.text,
                        font_name := s.font_name,
                        font_resource_name :=
                          (get_or_create_font_ref st1 s.font_name page).1,
                        page := page, x := cx, y := pdf_y,
                        font_size :=
                          (get_or_create_font_ref st1
                            s.font_name page).2.current_font_size,
                        color :=
                          (get_or_create_font_ref st1
                            s.font_name page).2.current_text_color }
                :: ops, ?_, ?_⟩
              · rw [hops]
                simp only [List.cons_append]
                rw [get_or_create_font_ref_buffered st1 s.font_name page,
                  update_font_data_buffered st s.font_name _ st1 hup]
                simp
              · intro op hop
                rcases List.mem_cons.mp hop with rfl | hmem
                · exact ⟨rfl, rfl⟩
                · exact hall op hmem

theorem mediaBoxWalk_boxless_rootless (g : PdfGraph) (pid : Nat)
    (d : List (String × PdfObj))
    (hd : alookup g.objects pid = some (.dict d))
    (hmb : dictGet d "MediaBox" = none)
    (hcb : dictGet d "CropBox" = none)
    (hpar : dictGet d "Parent" = none) :
    get_inherited_media_box g pid = .ok defaultA4 := by
  unfold get_inherited_media_box
  simp only [mediaBoxWalk, getObject, hd, hmb, hcb, hpar, Option.or]

theorem get_current_font_name_of_some (st : DocState) (f : String)
    (h : st.current_family = some f) :
    get_current_font_name st =
      .ok (match alookup st.font_families f with
           | some _ => get_variant_name f st.current_weight st.current_style
           | none => f) := by
  unfold get_current_font_name
  rw [h]
  cases halo : alookup st.font_families f <;> simp [halo]

theorem segmentGo_spec (st : DocState) (fam var : String) :
    ∀ (rest : List Char) (font : String) (seg : List Char),
      ((segmentGo st fam var rest font seg).map TextSegment.text).flatten
          = seg ++ rest
      ∧ (segmentGo st fam var rest font seg).Chain'
          (fun a b => a.font_name ≠ b.font_name)
      ∧ ((segmentGo st fam var rest font seg).head?.map TextSegment.font_name)
          = some font := by
  intro rest
  induction rest with
  | nil =>
      intro font seg
      refine ⟨by simp [segmentGo], by simp [segmentGo], by simp [segmentGo]⟩
  | cons c rest ih =>
      intro font seg
      by_cases h : font_for_char st fam var c = font
      · obtain ⟨h1, h2, h3⟩ := ih font (seg ++ [c])
        refine ⟨?_, ?_, ?_⟩
        · simp only [segmentGo, h, if_pos]
          rw [h1]
          simp
        · simpa [segmentGo, h] using h2
        · simpa [segmentGo, h] using h3
      · obtain ⟨h1, h2, h3⟩ := ih (font_for_char st fam var c) [c]
        refine ⟨?_, ?_, ?_⟩
        · simp only [segmentGo]
          rw [if_neg h]
          simp only [List.map_cons, List.flatten_cons]
          rw [h1]
          simp
        · simp only [segmentGo]
          rw [if_neg h, List.chain'_cons']
          refine ⟨?_, h2⟩
          intro b hb
          cases hhead : (segmentGo st fam var rest
              (font_for_char st fam var c) [c]).head? with
          | none => simp [hhead] at hb
          | some s =>
              rw [hhead] at hb
              simp at hb
              subst hb
              rw [hhead] at h3
              simp at h3
              simp [h3]
              exact fun hc => h hc.symm
        · simp only [segmentGo]
          rw [if_neg h]
          simp

/-! ## Claim theorems -/

/-- **C7.** For every font family, `get_variant` follows the documented
precedence: Bold+Italic tries bold-italic, bold, italic, regular;
Bold+Normal tries bold then regular; Regular+Italic tries italic then
regular; Regular+Normal uses regular — the first present variant in the
chain (`variantChain`, transcribed from the spec's table) is returned. -/
theorem C7_get_variant_follows_documented_precedence
    (fam : FontFamily) (weight : FontWeight) (style : FontStyle) :
    get_variant fam weight style = (variantChain fam weight style).findSome? id := by
  obtain ⟨r, b, i, bi⟩ := fam
  cases weight <;> cases style <;>
    cases r <;> cases b <;> cases i <;> cases bi <;>
      simp [get_variant, variantChain, List.findSome?, Option.or]

/-- **C1.** The claim asserts the regular variant built by
`FontFamilyBuilder::build` is named exactly the family name, so that
the name `get_variant_name` computes for Regular+Normal finds it.  The
code violates this: `build` names the regular variant
`<family>-regular` while `get_variant_name` yields `<family>`, so
`get_font_data` on the selected name fails with `FontNotFound` (and a
regular-weight `insert_text` on a registered family errors out), while
the bold/italic/bold-italic names do line up. -/
theorem C1_regular_variant_name_mismatch :
    get_variant_name "sarabun" .Regular .Normal = "sarabun" ∧
    get_variant_name "sarabun" .Bold .Normal = "sarabun-bold" ∧
    get_variant_name "sarabun" .Regular .Italic = "sarabun-italic" ∧
    get_variant_name "sarabun" .Bold .Italic = "sarabun-bold-italic" ∧
    build testParse sarabunBuilder "sarabun" = .ok sarabunFam ∧
    sarabunFam.regular.map FontData.name = some "sarabun-regular" ∧
    "sarabun-regular" ≠ "sarabun" ∧
    famFind sarabunFam (get_variant_name "sarabun" .Regular .Normal) = none ∧
    famFind sarabunFam (get_variant_name "sarabun" .Bold .Normal) = sarabunFam.bold ∧
    famFind sarabunFam (get_variant_name "sarabun" .Regular .Italic) = sarabunFam.italic ∧
    famFind sarabunFam (get_variant_name "sarabun" .Bold .Italic) = sarabunFam.bold_italic ∧
    get_font_data docC1 "sarabun" = .error (.FontNotFound "sarabun") ∧
    insert_text docC1 ['A'] 1 100 100 .Left =
      .error (.FontNotFound "sarabun") := by
  refine ⟨rfl, rfl, rfl, rfl, rfl, rfl, by decide, rfl,
    rfl, rfl, rfl, rfl, rfl⟩

/-- **C4.** For every document state, text and font names,
`segment_text_by_font` returns segments whose concatenated texts equal
the input codepoint-for-codepoint, and every consecutive pair of
segments carries different font (variant) names.  Determinism for a
fixed document state is definitional here: the embedding is a pure
function of the state and the text. -/
theorem C4_segmentation_partition (st : DocState) (text : List Char)
    (family_name variant_name : String) :
    ((segment_text_by_font st text family_name variant_name).map
        TextSegment.text).flatten = text
    ∧ (segment_text_by_font st text family_name variant_name).Chain'
        (fun a b => a.font_name ≠ b.font_name) := by
  cases text with
  | nil => simp [segment_text_by_font]
  | cons c rest =>
      obtain ⟨h1, h2, h3⟩ := segmentGo_spec st family_name variant_name rest
        (font_for_char st family_name variant_name c) [c]
      constructor
      · simpa [segment_text_by_font] using h1
      · simpa [segment_text_by_font] using h2

/-- **C8.** For every font descriptor whose used set (a duplicate-free
list) has u16 glyph ids, the generated ToUnicode CMap is the canonical
header, then the used codepoints sorted ascending split into chunks of
at most 100 entries — each chunk wrapped as
`N beginbfchar … endbfchar` with `N` the chunk's entry count
(`bfcharBlock`), each mapping `<GID4hex> <CP4hex>` (`bfcharEntry`, the
GID field exactly 4 hex digits) — then the canonical footer; the total
number of entries equals the size of the used set. -/
theorem C8_tounicode_chunking (fd : FontData)
    (_hnd : fd.usedChars.Nodup)
    (hb : ∀ c ∈ fd.usedChars, (glyph_id fd c).getD 0 < 65536) :
    generate_tounicode_cmap fd =
      cmapHeader ++ String.join ((cmapChunks fd).map (bfcharBlock fd)) ++ cmapFooter
    ∧ (sortedUsed fd).Sorted (fun a b : Char => a ≤ b)
    ∧ (cmapChunks fd).flatten = sortedUsed fd
    ∧ (∀ ch ∈ cmapChunks fd, ch.length ≤ 100)
    ∧ ((cmapChunks fd).map List.length).sum = fd.usedChars.length
    ∧ ∀ ch ∈ cmapChunks fd, ∀ c ∈ ch,
        (hex04 ((glyph_id fd c).getD 0)).length = 4 := by
  have hflat : (cmapChunks fd).flatten = sortedUsed fd := by
    simp only [cmapChunks, chunk100]
    exact chunksAux_flatten 100 (by norm_num) _ _ le_rfl
  refine ⟨?_, ?_, hflat, ?_, ?_, ?_⟩
  · by_cases hempty : (sortedUsed fd).isEmpty
    · have hnil : sortedUsed fd = [] := List.isEmpty_iff.mp hempty
      simp [generate_tounicode_cmap, hempty, cmapChunks, hnil, chunk100,
        chunksAux, String.join]
    · simp [generate_tounicode_cmap, hempty]
  · exact List.sorted_insertionSort _ _
  · intro ch hch
    simp only [cmapChunks, chunk100] at hch
    exact (chunksAux_mem_length 100 (by norm_num) _ _ ch hch).1
  · simp only [cmapChunks, chunk100]
    rw [chunksAux_sum_length 100 (by norm_num) _ _ le_rfl]
    exact List.length_insertionSort _ _
  · intro ch hch c hc
    have hmem : c ∈ (cmapChunks fd).flatten := List.mem_flatten.mpr ⟨ch, hch, hc⟩
    rw [hflat] at hmem
    have : c ∈ fd.usedChars := (List.mem_insertionSort _).mp hmem
    exact hex04_length_of_lt _ (hb c this)

/-- **C5.** `insert_text` returns `InvalidPage(page, page_count)`
exactly when `page = 0` or `page > page_count`; on a valid page an
empty text returns `Ok` leaving the state untouched (no buffered op,
no used characters, no resource tag — the returned state is the input
state); on a valid page a non-empty text with no font family selected
returns `FontNotFound`. -/
theorem C5_insert_text_error_contract (st : DocState) (text : List Char)
    (page : Nat) (x y : ℚ) (align : Align) :
    (insert_text st text page x y align
        = .error (.InvalidPage page (page_count st))
      ↔ page = 0 ∨ page_count st < page)
    ∧ (page ≠ 0 → page ≤ page_count st → text = [] →
        insert_text st text page x y align = .ok st)
    ∧ (page ≠ 0 → page ≤ page_count st → text ≠ [] →
        st.current_family = none →
        insert_text st text page x y align
          = .error (.FontNotFound "No font family set")) := by
  refine ⟨⟨?_, ?_⟩, ?_, ?_⟩
  · intro h
    by_contra hval
    push_neg at hval
    obtain ⟨h0, hlt⟩ := hval
    simp only [insert_text] at h
    rw [if_neg (by omega : ¬(page = 0 ∨ page > page_count st))] at h
    by_cases htext : text = []
    · rw [if_pos htext] at h
      simp at h
    · rw [if_neg htext] at h
      cases hcf : st.current_family with
      | none =>
          rw [hcf] at h
          simp at h
      | some fam =>
          rw [hcf, get_current_font_name_of_some st fam hcf] at h
          simp only [] at h
          cases htw : totalWidthLoop st st.current_font_size
              (if (alookup st.font_fallbacks fam).isSome = true
               then segment_text_by_font st text fam
                 (match alookup st.font_families fam with
                  | some _ => get_variant_name fam st.current_weight st.current_style
                  | none => fam)
               else [⟨text, match alookup st.font_families fam with
                  | some _ => get_variant_name fam st.current_weight st.current_style
                  | none => fam⟩]) 0 with
          | error e =>
              simp only [htw, Except.error.injEq] at h
              obtain ⟨n, hn⟩ := totalWidthLoop_error_shape st _ _ _ _ htw
              rw [hn] at h
              exact PdfError.noConfusion h
          | ok tw =>
              simp only [htw] at h
              cases hph : get_page_height st.inner page with
              | error e =>
                  simp only [hph, Except.error.injEq] at h
                  rcases get_page_height_error_shape st.inner page h0
                      (by simp only [page_count] at hlt; omega) e hph with
                      ⟨m, hm⟩ | ⟨m, hm⟩ <;>
                    rw [hm] at h <;> exact PdfError.noConfusion h
              | ok ph =>
                  simp only [hph] at h
                  obtain ⟨n, hn⟩ := renderSegments_error_shape _ _ _ _ _ _ h
                  exact PdfError.noConfusion hn
  · intro hinv
    simp only [insert_text]
    rw [if_pos (by omega : page = 0 ∨ page > page_count st)]
  · intro h0 hle htext
    subst htext
    simp only [insert_text]
    rw [if_neg (by omega : ¬(page = 0 ∨ page > page_count st))]
    simp
  · intro h0 hle htext hcf
    simp only [insert_text]
    rw [if_neg (by omega : ¬(page = 0 ∨ page > page_count st)),
      if_neg htext, hcf]

/-- Witness for C5: the contract applies at the one-page document —
page 2 is rejected as `InvalidPage(2, 1)`, empty text on page 1 is a
no-op, and non-empty text on page 1 with no family selected is
`FontNotFound`. -/
theorem C5_insert_text_error_contract_witness :
    insert_text (openedDoc onePageGraph) ['A'] 2 0 0 .Left
      = .error (.InvalidPage 2 (page_count (openedDoc onePageGraph)))
    ∧ insert_text (openedDoc onePageGraph) [] 1 0 0 .Left
      = .ok (openedDoc onePageGraph)
    ∧ insert_text (openedDoc onePageGraph) ['A'] 1 0 0 .Left
      = .error (.FontNotFound "No font family set") :=
  ⟨(C5_insert_text_error_contract (openedDoc onePageGraph) ['A'] 2 0 0
      .Left).1.mpr (by right; decide),
   (C5_insert_text_error_contract (openedDoc onePageGraph) [] 1 0 0
      .Left).2.1 (by decide) (by decide) rfl,
   (C5_insert_text_error_contract (openedDoc onePageGraph) ['A'] 1 0 0
      .Left).2.2 (by decide) (by decide) (by simp) rfl⟩

/-- **C10.** `insert_text` validates the page before the empty-text
check and before font resolution: with empty text and an out-of-range
page it returns `InvalidPage` rather than silently succeeding, while
with empty text and a valid page it returns `Ok` with the state
entirely unchanged even when no font family has been selected (the
conclusion holds for every state, in particular those with
`current_family = none`, and the returned state is the input state). -/
theorem C10_page_validation_precedes_empty_check (st : DocState)
    (page : Nat) (x y : ℚ) (align : Align) :
    ((page = 0 ∨ page_count st < page) →
      insert_text st [] page x y align
        = .error (.InvalidPage page (page_count st)))
    ∧ (page ≠ 0 → page ≤ page_count st →
      insert_text st [] page x y align = .ok st) := by
  constructor
  · intro hinv
    simp only [insert_text]
    rw [if_pos (by omega : page = 0 ∨ page > page_count st)]
  · intro h0 hle
    simp only [insert_text]
    rw [if_neg (by omega : ¬(page = 0 ∨ page > page_count st))]
    simp

/-- Witness for C10: at the one-page document with no font selected,
empty text on page 7 yields `InvalidPage(7, 1)` and empty text on
page 1 yields `Ok` with the state unchanged. -/
theorem C10_page_validation_precedes_empty_check_witness :
    insert_text (openedDoc onePageGraph) [] 7 0 0 .Left
      = .error (.InvalidPage 7 (page_count (openedDoc onePageGraph)))
    ∧ insert_text (openedDoc onePageGraph) [] 1 0 0 .Left
      = .ok (openedDoc onePageGraph) :=
  ⟨(C10_page_validation_precedes_empty_check (openedDoc onePageGraph)
      7 0 0 .Left).1 (by right; decide),
   (C10_page_validation_precedes_empty_check (openedDoc onePageGraph)
      1 0 0 .Left).2 (by decide) (by decide)⟩

/-- **C6.** Every buffered op a successful `insert_text` appends
stores `y = page_height − input_y`, where `page_height` is the value
`get_page_height` computes — the MediaBox/CropBox `y2 − y1` obtained by
`get_inherited_media_box`'s bounded `Parent` walk (fuel 10 in
`mediaBoxWalk`).  When the boxes are absent and there is no parent the
walk yields the A4 fallback, whose extracted height is 841.89. -/
theorem C6_y_coordinate_conversion :
    (∀ (st : DocState) (text : List Char) (page : Nat) (x y : ℚ)
        (align : Align) (st' : DocState) (hgt : ℚ),
        insert_text st text page x y align = .ok st' →
        get_page_height st.inner page = .ok hgt →
        ∃ ops, st'.buffered_text_ops = st.buffered_text_ops ++ ops ∧
          ∀ op ∈ ops, op.y = hgt - y)
    ∧ (∀ (g : PdfGraph) (pid : Nat) (d : List (String × PdfObj)),
        alookup g.objects pid = some (.dict d) →
        dictGet d "MediaBox" = none → dictGet d "CropBox" = none →
        dictGet d "Parent" = none →
        get_inherited_media_box g pid = .ok defaultA4)
    ∧ extract_height_from_media_box defaultA4 = .ok (84189 / 100 : ℚ)
    ∧ get_inherited_media_box cycleGraph 1 = .ok defaultA4 := by
  refine ⟨?_, mediaBoxWalk_boxless_rootless, by norm_num [extract_height_from_media_box,
    defaultA4, objToRat, List.get], rfl⟩
  intro st text page x y align st' hgt hok hph
  simp only [insert_text] at hok
  by_cases hval : page = 0 ∨ page > page_count st
  · rw [if_pos hval] at hok
    exact absurd hok (by simp)
  · rw [if_neg hval] at hok
    by_cases htext : text = []
    · rw [if_pos htext] at hok
      simp only [Except.ok.injEq] at hok
      subst hok
      exact ⟨[], by simp, by simp⟩
    · rw [if_neg htext] at hok
      cases hcf : st.current_family with
      | none =>
          rw [hcf] at hok
          exact absurd hok (by simp)
      | some fam =>
          rw [hcf, get_current_font_name_of_some st fam hcf] at hok
          simp only [] at hok
          cases htw : totalWidthLoop st st.current_font_size
              (if (alookup st.font_fallbacks fam).isSome = true
               then segment_text_by_font st text fam
                 (match alookup st.font_families fam with
                  | some _ => get_variant_name fam st.current_weight st.current_style
                  | none => fam)
               else [⟨text, match alookup st.font_families fam with
                  | some _ => get_variant_name fam st.current_weight st.current_style
                  | none => fam⟩]) 0 with
          | error e =>
              rw [htw] at hok
              exact absurd hok (by simp)
          | ok tw =>
              rw [htw] at hok
              simp only [] at hok
              rw [hph] at hok
              simp only [] at hok
              obtain ⟨ops, hops, hall⟩ := renderSegments_ops _ _ _ _ _ _ hok
              exact ⟨ops, hops, fun op hop => (hall op hop).1⟩

/-- Witness for C6: inserting "A" at (100, 100) on page 1 of the
A4 one-page document buffers an op whose stored y is 841.89 − 100. -/
theorem C6_y_coordinate_conversion_witness :
    insert_text docC6 ['A'] 1 100 100 .Left = .ok docC6r
    ∧ get_page_height docC6.inner 1 = .ok (84189 / 100 : ℚ)
    ∧ ∃ ops, docC6r.buffered_text_ops = docC6.buffered_text_ops ++ ops ∧
        ∀ op ∈ ops, op.y = (84189 / 100 : ℚ) - 100 := by
  have hph : get_page_height docC6.inner 1 = .ok (84189 / 100 : ℚ) := by
    with_unfolding_all rfl
  have hok : insert_text docC6 ['A'] 1 100 100 .Left = .ok docC6r := rfl
  exact ⟨hok, hph, C6_y_coordinate_conversion.1 docC6 ['A'] 1 100 100 .Left
    docC6r (84189 / 100 : ℚ) hok hph⟩

/-- **C3.** During save, `subset_fonts` applies `create_subset` to
exactly the fonts whose used-characters set is non-empty (looked up by
name, families first, then legacy; variants with an empty used set are
left untouched since `create_subset` skips them); the produced subset
contains glyph 0 (notdef) and a glyph for every used codepoint
together with a codepoint → new-glyph-id map covering the used set,
and a font without a subset encodes with the original glyph ids.
`create_subset`/`encode_text_hex_remapped` are modelled from the spec,
as their definitions are absent from the sources; `subset_fonts` is
embedded from document.rs. -/
theorem C3_subset_fonts_contract (st : DocState) :
    (∃ st', subset_fonts st = .ok st'
       ∧ ∀ (n : String) (fd : FontData), get_font_data st n = .ok fd →
           get_font_data st' n
             = .ok (if fd.usedChars = [] then fd else create_subset fd))
    ∧ (∀ fd : FontData, fd.usedChars ≠ [] →
        ∃ s, (create_subset fd).subset = some s
          ∧ 0 ∈ s.glyphs
          ∧ (∀ c ∈ fd.usedChars, (glyph_id fd c).getD 0 ∈ s.glyphs)
          ∧ ∀ c ∈ fd.usedChars, (alookup s.remap c).isSome)
    ∧ (∀ (fd : FontData) (t : List Char), fd.subset = none →
        encode_text_hex_remapped fd t = encode_text_hex fd t) := by
  refine ⟨?_, create_subset_coverage, ?_⟩
  · obtain ⟨st', hfold, hchar⟩ := subsetFold_spec (subsetNames st) st
      (subsetNames_nodup st) (subsetNames_findable st)
    refine ⟨st', hfold, ?_⟩
    intro n fd h
    have hc := hchar n fd h
    by_cases hu : fd.usedChars = []
    · rw [if_pos hu, hc]
      by_cases hmem : n ∈ subsetNames st
      · rw [if_pos hmem, create_subset_of_empty fd hu]
      · rw [if_neg hmem]
    · rw [if_neg hu, hc,
        if_pos (mem_subsetNames_of_found st n fd h hu)]
  · intro fd t hnone
    unfold encode_text_hex_remapped
    rw [hnone]

/-- Witness for C3: on the one-page document with font "t" having used
set {'A'}, subsetting succeeds, the stored font becomes
`create_subset fdC3`, and the coverage facts hold at `fdC3`. -/
theorem C3_subset_fonts_contract_witness :
    fdC3.usedChars ≠ []
    ∧ (∃ st', subset_fonts docC3 = .ok st'
        ∧ get_font_data st' "t" = .ok (create_subset fdC3))
    ∧ ∃ s, (create_subset fdC3).subset = some s ∧ 0 ∈ s.glyphs := by
  obtain ⟨st', hfold, hchar⟩ := (C3_subset_fonts_contract docC3).1
  have hne : ¬fdC3.usedChars = [] := by decide
  refine ⟨hne, ⟨st', hfold, ?_⟩, ?_⟩
  · have hc := hchar "t" fdC3 rfl
    rw [if_neg hne] at hc
    exact hc
  · obtain ⟨s, hs, h0, _, _⟩ := (C3_subset_fonts_contract docC3).2.1 fdC3 hne
    exact ⟨s, hs, h0⟩

/-- Witness for C8: the hypotheses hold and the theorem applies at the
two-character descriptor `fdC8`. -/
theorem C8_tounicode_chunking_witness :
    fdC8.usedChars.Nodup
    ∧ ((cmapChunks fdC8).map List.length).sum = fdC8.usedChars.length :=
  ⟨by decide, (C8_tounicode_chunking fdC8 (by decide) (by decide)).2.2.2.2.1⟩

/-- **C9**: image insertion deduplicates by the 64-bit hash of the raw
byte buffer.  Whenever `get_or_create_image_ref` succeeds with tag
`name`, dimensions `(w, h)` and state `st'`, then (1) running it again
on `st'` with the same bytes and page returns the very same tag,
dimensions and state — so inserting the same image N ≥ 1 times reuses
one object id and one per-page `Im*` tag and adds nothing after the
first time; (2) `st'` maps the hash of the bytes to a single object id
`oid`, and the page's resource list contains the entry `(name, oid)`
that the tag-reuse search finds; (3) at most one indirect object was
added to the document, so exactly one XObject exists for the bytes. -/
theorem C9_image_dedup (decode : List Nat → Option ImageXObject)
    (st : DocState) (data : List Nat) (page : Nat)
    (name : String) (w h : Nat) (st' : DocState)
    (hok : get_or_create_image_ref decode st data page
      = .ok (name, w, h, st')) :
    get_or_create_image_ref decode st' data page = .ok (name, w, h, st')
    ∧ (∃ oid, alookup st'.embedded_images (imageHash data) = some oid
        ∧ ∃ pres, alookup st'.page_image_resources page = some pres
          ∧ List.find? (fun p => p.2 = oid) pres = some (name, oid))
    ∧ st'.inner.objects.length ≤ st.inner.objects.length + 1 := by
  unfold get_or_create_image_ref at hok
  dsimp only at hok
  cases hemb : alookup st.embedded_images (imageHash data) with
  | some oid =>
      rw [hemb] at hok
      dsimp only at hok
      cases hobj : getObject st.inner oid with
      | error e =>
          rw [hobj] at hok
          exact absurd hok (by simp)
      | ok xobj =>
          rw [hobj] at hok
          dsimp only at hok
          cases hdim : getDims xobj with
          | error e =>
              rw [hdim] at hok
              exact absurd hok (by simp)
          | ok wh =>
              obtain ⟨w0, h0⟩ := wh
              rw [hdim] at hok
              dsimp only at hok
              obtain ⟨hw, hh, hembEq, ⟨pres, hpres, hfind⟩, hidem, hstr, hlen⟩ :=
                imageTagStep_spec _ _ _ _ _ _ _ _ _ hok
              subst hw
              subst hh
              obtain ⟨sd, sc, hxs⟩ := getDims_ok_stream _ _ _ hdim
              subst hxs
              have hoid' : alookup st'.inner.objects oid
                  = some (PdfObj.stream sd sc) :=
                hstr _ _ _ ((getObject_ok_iff _ _ _).mp hobj)
              have h2 : getObject st'.inner oid = .ok (PdfObj.stream sd sc) :=
                (getObject_ok_iff _ _ _).mpr hoid'
              refine ⟨?_, ⟨oid, by rw [hembEq, hemb], pres, hpres, hfind⟩,
                by omega⟩
              unfold get_or_create_image_ref
              simp only [hembEq, hemb, h2, hdim]
              exact hidem
  | none =>
      rw [hemb] at hok
      dsimp only at hok
      cases hdec : decode data with
      | none =>
          rw [hdec] at hok
          exact absurd hok (by simp)
      | some xo =>
          rw [hdec] at hok
          dsimp only at hok
          have h1 : getObject (addObject st.inner (imgToStream xo)).2
              (addObject st.inner (imgToStream xo)).1 = .ok (imgToStream xo) :=
            (getObject_ok_iff _ _ _).mpr (addObject_lookup_new _ _)
          rw [h1] at hok
          dsimp only at hok
          rw [getDims_imgToStream] at hok
          dsimp only at hok
          obtain ⟨hw, hh, hembEq, ⟨pres, hpres, hfind⟩, hidem, hstr, hlen⟩ :=
            imageTagStep_spec _ _ _ _ _ _ _ _ _ hok
          subst hw
          subst hh
          have hembEq' : st'.embedded_images
              = upsert st.embedded_images (imageHash data)
                (addObject st.inner (imgToStream xo)).1 := hembEq
          have hlen' : st'.inner.objects.length
              = (addObject st.inner (imgToStream xo)).2.objects.length := hlen
          have hlenA : (addObject st.inner (imgToStream xo)).2.objects.length
              = st.inner.objects.length + 1 := by
            simp [addObject]
          have hs : alookup st'.inner.objects
              (addObject st.inner (imgToStream xo)).1
              = some (imgToStream xo) :=
            hstr _ _ _ (addObject_lookup_new st.inner (imgToStream xo))
          have h2 : getObject st'.inner (addObject st.inner (imgToStream xo)).1
              = .ok (imgToStream xo) := (getObject_ok_iff _ _ _).mpr hs
          refine ⟨?_, ⟨_, by rw [hembEq']; exact alookup_upsert_self _ _ _,
            pres, hpres, hfind⟩, by omega⟩
          unfold get_or_create_image_ref
          simp only [hembEq', alookup_upsert_self, h2, getDims_imgToStream]
          exact hidem

/-- **C2**: for every valid page number of an open document (page tree
shaped as the code expects), `duplicate_page` succeeds and returns the
new page number `page_count + 1`; it stores the cloned page dictionary
as a fresh indirect object, appends a reference to that clone to the
page tree's `Kids` array while incrementing `Count` by one, and copies
the source page's font and image resource-tag maps to the new page
number.  The content streams are deep-copied in both forms: an inline
`Contents` stream is replaced in the clone by a fresh stream value
with the same dictionary and bytes, and a `Contents` array of stream
references is replaced by an array of references to freshly allocated
stream objects — ids absent from the original document — each holding
the corresponding source stream's dictionary and bytes, so the clone
shares no content-stream object with the original. -/
theorem C2_duplicate_page (st : DocState) (page : Nat)
    (spid catId pagesId : Nat)
    (sdict catDict pagesDict : List (String × PdfObj))
    (kids : List PdfObj) (cnt : Int)
    (hpage : 1 ≤ page) (hle : page ≤ (getPages st.inner).length)
    (hspid : pageIdOf st.inner page = some spid)
    (hsdict : alookup st.inner.objects spid = some (.dict sdict))
    (hroot : alookup st.inner.trailer "Root" = some (.ref catId))
    (hcat : alookup st.inner.objects catId = some (.dict catDict))
    (hpg : dictGet catDict "Pages" = some (.ref pagesId))
    (hpd : alookup st.inner.objects pagesId = some (.dict pagesDict))
    (hkids : dictGet pagesDict "Kids" = some (.array kids))
    (hcnt : dictGet pagesDict "Count" = some (.int cnt)) :
    (∃ r, duplicate_page st page = .ok r)
    ∧ ∀ st' pc', duplicate_page st page = .ok (st', pc') →
        pc' = (getPages st.inner).length + 1
        ∧ (∃ newId,
            alookup st.inner.objects newId = none
            ∧ alookup st'.inner.objects newId
                = some (.dict (clonePageDict st.inner sdict).1)
            ∧ alookup st'.inner.objects pagesId = some (.dict
                (dictSet (dictSet pagesDict "Kids"
                    (.array (kids ++ [.ref newId])))
                  "Count" (.int (cnt + 1)))))
        ∧ (∀ m, alookup st.page_font_resources page = some m →
            alookup st'.page_font_resources pc' = some m)
        ∧ (∀ m, alookup st.page_image_resources page = some m →
            alookup st'.page_image_resources pc' = some m)
        ∧ (∀ sd sc, dictGet sdict "Contents" = some (.stream sd sc) →
            dictGet (clonePageDict st.inner sdict).1 "Contents"
              = some (streamNew sd sc))
        ∧ (∀ arr, dictGet sdict "Contents" = some (.array arr) →
            dictGet (clonePageDict st.inner sdict).1 "Contents"
              = some (.array (cloneStreams st.inner
                  (collectArrStreams st.inner arr)).1)
            ∧ (cloneStreams st.inner
                (collectArrStreams st.inner arr)).1.length
              = (collectArrStreams st.inner arr).length
            ∧ ∀ p ∈ (collectArrStreams st.inner arr).zip
                (cloneStreams st.inner (collectArrStreams st.inner arr)).1,
                ∃ nid, p.2 = PdfObj.ref nid
                  ∧ alookup st.inner.objects nid = none
                  ∧ alookup st'.inner.objects nid
                      = some (streamNew p.1.1 p.1.2)) := by
  obtain ⟨hclM, hclT, hclP⟩ := clonePageDict_graph st.inner sdict
  have hgo : getObject st.inner spid = .ok (.dict sdict) :=
    (getObject_ok_iff _ _ _).mpr hsdict
  have hif : ¬(page = 0 ∨ page > (getPages st.inner).length) := by omega
  have hidEq : (addObject (clonePageDict st.inner sdict).2
      (PdfObj.dict (clonePageDict st.inner sdict).1)).1
      = maxObjId (clonePageDict st.inner sdict).2 + 1 := rfl
  have hfresh : alookup st.inner.objects
      (addObject (clonePageDict st.inner sdict).2
        (PdfObj.dict (clonePageDict st.inner sdict).1)).1 = none := by
    rw [hidEq]
    exact alookup_gt_max_none _ _ (by omega)
  have hneP : pagesId ≠ (addObject (clonePageDict st.inner sdict).2
      (PdfObj.dict (clonePageDict st.inner sdict).1)).1 := by
    intro hc
    rw [← hc] at hfresh
    rw [hfresh] at hpd
    exact Option.noConfusion hpd
  have htr2 : (addObject (clonePageDict st.inner sdict).2
      (PdfObj.dict (clonePageDict st.inner sdict).1)).2.trailer
      = st.inner.trailer := hclT
  have hpres2 : ∀ k v, alookup st.inner.objects k = some v →
      alookup (addObject (clonePageDict st.inner sdict).2
        (PdfObj.dict (clonePageDict st.inner sdict).1)).2.objects k
        = some v :=
    fun k v hk => addObject_lookup_old _ _ _ _ (hclP _ _ hk)
  have happ := appendKid_ok
    (addObject (clonePageDict st.inner sdict).2
      (PdfObj.dict (clonePageDict st.inner sdict).1)).2
    (addObject (clonePageDict st.inner sdict).2
      (PdfObj.dict (clonePageDict st.inner sdict).1)).1
    catId pagesId catDict pagesDict kids cnt
    (by rw [htr2]; exact hroot)
    (hpres2 _ _ hcat) hpg (hpres2 _ _ hpd) hkids hcnt
  have hrun : ∃ st3, duplicate_page st page
      = .ok (st3, (getPages st.inner).length + 1)
      ∧ st3.inner = setObject
          (addObject (clonePageDict st.inner sdict).2
            (PdfObj.dict (clonePageDict st.inner sdict).1)).2 pagesId
          (PdfObj.dict (dictSet (dictSet pagesDict "Kids"
              (PdfObj.array (kids ++ [PdfObj.ref
                (addObject (clonePageDict st.inner sdict).2
                  (PdfObj.dict (clonePageDict st.inner sdict).1)).1])))
            "Count" (PdfObj.int (cnt + 1))))
      ∧ (∀ m, alookup st.page_font_resources page = some m →
          alookup st3.page_font_resources
            ((getPages st.inner).length + 1) = some m)
      ∧ (∀ m, alookup st.page_image_resources page = some m →
          alookup st3.page_image_resources
            ((getPages st.inner).length + 1) = some m) := by
    unfold duplicate_page
    dsimp only
    rw [if_neg hif, hspid]
    dsimp only
    rw [hgo]
    dsimp only
    rw [happ]
    dsimp only
    cases hf : alookup st.page_font_resources page with
    | some mf =>
        dsimp only
        cases hi : alookup st.page_image_resources page with
        | some mi =>
            refine ⟨_, rfl, rfl, ?_, ?_⟩
            · intro m hm
              simp only [Option.some.injEq] at hm
              subst hm
              exact alookup_upsert_self _ _ _
            · intro m hm
              simp only [Option.some.injEq] at hm
              subst hm
              exact alookup_upsert_self _ _ _
        | none =>
            refine ⟨_, rfl, rfl, ?_, ?_⟩
            · intro m hm
              simp only [Option.some.injEq] at hm
              subst hm
              exact alookup_upsert_self _ _ _
            · intro m hm
              exact Option.noConfusion hm
    | none =>
        dsimp only
        cases hi : alookup st.page_image_resources page with
        | some mi =>
            refine ⟨_, rfl, rfl, ?_, ?_⟩
            · intro m hm
              exact Option.noConfusion hm
            · intro m hm
              simp only [Option.some.injEq] at hm
              subst hm
              exact alookup_upsert_self _ _ _
        | none =>
            refine ⟨_, rfl, rfl, ?_, ?_⟩
            · intro m hm
              exact Option.noConfusion hm
            · intro m hm
              exact Option.noConfusion hm
  obtain ⟨st3, hrun, h3inner, h3f, h3i⟩ := hrun
  refine ⟨⟨_, hrun⟩, ?_⟩
  intro st' pc' hdp
  rw [hrun] at hdp
  simp only [Except.ok.injEq, Prod.mk.injEq] at hdp
  obtain ⟨hst, hpc⟩ := hdp
  subst hst
  subst hpc
  refine ⟨rfl, ?_, h3f, h3i, ?_, ?_⟩
  · refine ⟨(addObject (clonePageDict st.inner sdict).2
      (PdfObj.dict (clonePageDict st.inner sdict).1)).1, hfresh, ?_, ?_⟩
    · rw [h3inner]
      simp only [setObject]
      rw [alookup_upsert_ne _ _ _ _ hneP]
      exact addObject_lookup_new _ _
    · rw [h3inner]
      simp only [setObject]
      exact alookup_upsert_self _ _ _
  · intro sd sc hc
    unfold clonePageDict
    rw [hc]
    exact alookup_upsert_self _ _ _
  · intro arr hc
    have hclEq : clonePageDict st.inner sdict
        = (dictSet sdict "Contents" (PdfObj.array (cloneStreams st.inner
            (collectArrStreams st.inner arr)).1),
          (cloneStreams st.inner (collectArrStreams st.inner arr)).2) := by
      unfold clonePageDict
      rw [hc]
    obtain ⟨hlenCS, hmaxCS, htrCS, hpresCS, hzipCS⟩ :=
      cloneStreams_spec (collectArrStreams st.inner arr) st.inner
    refine ⟨?_, hlenCS, ?_⟩
    · rw [hclEq]
      exact alookup_upsert_self _ _ _
    · intro p hp
      obtain ⟨nid, href, hgt, hlook⟩ := hzipCS p hp
      have hfreshN : alookup st.inner.objects nid = none :=
        alookup_gt_max_none _ _ hgt
      have hneN : pagesId ≠ nid := by
        intro hc2
        rw [← hc2] at hfreshN
        rw [hfreshN] at hpd
        exact Option.noConfusion hpd
      refine ⟨nid, href, hfreshN, ?_⟩
      rw [h3inner]
      simp only [setObject]
      rw [alookup_upsert_ne _ _ _ _ hneN]
      have hlook2 : alookup (clonePageDict st.inner sdict).2.objects nid
          = some (streamNew p.1.1 p.1.2) := by
        rw [hclEq]
        exact hlook
      exact addObject_lookup_old _ _ _ _ hlook2

/-- Witness for C2: the page-tree hypotheses hold on the concrete
one-page document with an inline content stream, and the theorem
applies there: duplicating page 1 succeeds. -/
theorem C2_duplicate_page_witness :
    1 ≤ (getPages (openedDoc c2Graph).inner).length
    ∧ ∃ r, duplicate_page (openedDoc c2Graph) 1 = .ok r :=
  ⟨by decide, (C2_duplicate_page (openedDoc c2Graph) 1 3 1 2 c2PageDict
    c2CatDict c2PagesDict [.ref 3] 1 (by decide) (by decide) (by rfl)
    (by rfl) (by rfl) (by rfl) (by rfl) (by rfl) (by rfl) (by rfl)).1⟩

/-- Witness for C9: one concrete insertion on the one-page document
succeeds, and the theorem applies there: the second insertion of the
same bytes returns the identical tag, dimensions and state. -/
theorem C9_image_dedup_witness :
    get_or_create_image_ref decodeC9 (openedDoc onePageGraph) [7] 1
        = .ok (c9res.1, c9res.2.1, c9res.2.2.1, c9res.2.2.2)
    ∧ (get_or_create_image_ref decodeC9 c9res.2.2.2 [7] 1
          = .ok (c9res.1, c9res.2.1, c9res.2.2.1, c9res.2.2.2)
      ∧ (∃ oid, alookup c9res.2.2.2.embedded_images (imageHash [7]) = some oid
          ∧ ∃ pres, alookup c9res.2.2.2.page_image_resources 1 = some pres
            ∧ List.find? (fun p => p.2 = oid) pres = some (c9res.1, oid))
      ∧ c9res.2.2.2.inner.objects.length
          ≤ (openedDoc onePageGraph).inner.objects.length + 1) :=
  ⟨by rfl, C9_image_dedup decodeC9 (openedDoc onePageGraph) [7] 1
    c9res.1 c9res.2.1 c9res.2.2.1 c9res.2.2.2 (by rfl)⟩

end Rspdft
